import Mathlib

/-!
Verification development for the GTM container analyzer
(`src/gtm-analyzer.py`).  The Python source operates on JSON documents
(nested dicts / lists / strings / numbers / booleans / None).  We embed
those values as the mutual inductive family `JValue` / `JList` / `JObj`
below and translate each analyzer routine into a Lean function over this
embedding.  Components (variables, tags, triggers, ...) are Python dicts
in the source, so they are modelled as `JObj` values.

Conventions used throughout:
* Python `dict.get(k, default)` is `jget` / `jgetD`; JSON-parsed dicts
  have unique keys, and `jget` returns the binding of the first (hence
  only) occurrence of the key.
* Python sets of strings are modelled as duplicate-free `List String`
  values in first-discovery order (`sinsert` / `sunion`); the analyzer
  only ever relies on membership and on per-key updates, which are
  independent of set iteration order.
* Python dicts used as counters are modelled as association lists in
  key-insertion order (`abump`, `aset`, `aupdate`), which matches the
  insertion-ordered behaviour of Python dicts.
* Loops whose termination is by a shrinking measure are written with an
  explicit fuel argument that is, by construction, at least the maximal
  number of iterations, so the zero-fuel branch is unreachable; this
  keeps every definition kernel-computable.
* Curly braces inside string literals are written with the escapes
  \x7b and \x7d.
-/

mutual

/-- A JSON value as produced by `json.load` in Python: strings, integers
(the containers under analysis use integral numbers only), booleans,
`None`, arrays and objects. -/
inductive JValue where
  | str (s : String)
  | num (n : Int)
  | bool (b : Bool)
  | null
  | arr (items : JList)
  | obj (fields : JObj)

/-- A JSON array, as a bespoke list so that the mutual recursion with
`JValue` stays structural (and hence kernel-computable). -/
inductive JList where
  | nil
  | cons (hd : JValue) (tl : JList)

/-- A JSON object: an ordered sequence of key/value pairs.  Objects
produced by Python's `json` module have pairwise distinct keys. -/
inductive JObj where
  | nil
  | cons (key : String) (val : JValue) (tl : JObj)

end

/-- Convert an ordinary list of values into a `JList` (used to write
concrete test containers). -/
def toJList : List JValue → JList
  | [] => .nil
  | v :: tl => .cons v (toJList tl)

/-- Convert an ordinary list of pairs into a `JObj` (used to write
concrete test containers). -/
def toJObj : List (String × JValue) → JObj
  | [] => .nil
  | (k, v) :: tl => .cons k v (toJObj tl)

/-- Convert a `JList` back to an ordinary list, which is how every
`for` loop over a JSON array is modelled. -/
def JList.toList : JList → List JValue
  | .nil => []
  | .cons v tl => v :: JList.toList tl

/-- Python `dict.get(k)`: the value bound to `k`, if any.  JSON-parsed
objects have unique keys, so taking the first binding is exact. -/
def jget : JObj → String → Option JValue
  | .nil, _ => none
  | .cons k v tl, key => if k = key then some v else jget tl key

/-- Python `dict.get(k, default)`. -/
def jgetD (o : JObj) (key : String) (dflt : JValue) : JValue :=
  (jget o key).getD dflt

/-- Python `dict.get(k, default)` for fields whose schema type is a
string (names, types, ids).  When the key is absent the default is
returned; a non-string value is collapsed to the default as well (in
Python such a value would make the subsequent string operation raise,
which no container produced by the exporter triggers). -/
def getStrD (o : JObj) (key : String) (dflt : String) : String :=
  match jget o key with
  | some (.str s) => s
  | _ => dflt

/-- Python truthiness of a JSON value (`bool(x)`): used for the
`component.get('paused', False)` checks. -/
def pyTruthy : JValue → Bool
  | .str s => s ≠ ""
  | .num n => n ≠ 0
  | .bool b => b
  | .null => false
  | .arr items => match items with | .nil => false | _ => true
  | .obj fields => match fields with | .nil => false | _ => true

mutual

/-- Python `==` on JSON values (used for trigger-id and template-id
comparisons, which are strings or numbers in the exports; for those
scalars this Boolean equality coincides with Python's). -/
def jeqV : JValue → JValue → Bool
  | .str a, .str b => a = b
  | .num a, .num b => a = b
  | .bool a, .bool b => a = b
  | .null, .null => true
  | .arr a, .arr b => jeqL a b
  | .obj a, .obj b => jeqO a b
  | _, _ => false

/-- Elementwise Python `==` on arrays. -/
def jeqL : JList → JList → Bool
  | .nil, .nil => true
  | .cons a as, .cons b bs => jeqV a b && jeqL as bs
  | _, _ => false

/-- Pairwise Python `==` on objects (JSON-parsed dicts compared here are
only the scalar-keyed id dictionaries, for which order agrees). -/
def jeqO : JObj → JObj → Bool
  | .nil, .nil => true
  | .cons k v tl, .cons k' v' tl' => k = k' && jeqV v v' && jeqO tl tl'
  | _, _ => false

end

/-- The opening curly brace character. -/
def lbrace : Char := '\x7b'

/-- The closing curly brace character. -/
def rbrace : Char := '\x7d'

/-- Python `str(x)` for the values interpolated into duplicate-grouping
keys.  Strings, integers, booleans and `None` match Python exactly;
composite values (which never occur as grouping parameters in the
exports) are abbreviated. -/
def pyStr : JValue → String
  | .str s => s
  | .num n => toString n
  | .bool true => "True"
  | .bool false => "False"
  | .null => "None"
  | .arr _ => "[...]"
  | .obj _ => "\x7b...\x7d"

/-! ## Reference Scanner

`get_variable_references_in_value` runs
`re.findall(r'\{\{([^}]+)\}\}', value)`.  For this particular pattern
the regex engine's behaviour is: at each position try to match `{{`,
then a maximal nonempty run of non-`}` characters, then `}}`
(backtracking cannot help, since the run may not contain `}`); on
failure advance one character, on success continue after the match.
`tryMatch` is one match attempt, `scanLoop` is the left-to-right scan.
-/

/-- One attempt of the pattern at the start of the input: on success
returns the captured group and the remaining input after the match. -/
def tryMatch (l : List Char) : Option (List Char × List Char) :=
  match l with
  | a :: b :: t =>
    if a = lbrace && b = lbrace then
      match t.dropWhile (fun c => c ≠ rbrace) with
      | c :: d :: rest =>
        if c = rbrace && d = rbrace && !(t.takeWhile (fun c => c ≠ rbrace)).isEmpty then
          some (t.takeWhile (fun c => c ≠ rbrace), rest)
        else none
      | _ => none
    else none
  | _ => none

/-- The scan underlying `re.findall`: try a match at the current
position; on failure move one character forward, on success continue
after the consumed text.  Each step consumes at least one character, so
fuel equal to the input length is never exhausted. -/
def scanLoop : Nat → List Char → List (List Char)
  | 0, _ => []
  | _ + 1, [] => []
  | fuel + 1, c :: rest =>
    match tryMatch (c :: rest) with
    | some (nm, after) => nm :: scanLoop fuel after
    | none => scanLoop fuel rest

/-- All captured groups of `re.findall(r'\{\{([^}]+)\}\}', ·)`, in match
order. -/
def scanMatches (l : List Char) : List (List Char) :=
  scanLoop l.length l

/-- Python `set.add`: sets of strings are duplicate-free lists in
discovery order. -/
def sinsert (l : List String) (x : String) : List String :=
  if x ∈ l then l else l ++ [x]

/-- Python `set.update`. -/
def sunion (a b : List String) : List String :=
  b.foldl sinsert a

/-- `get_variable_references_in_value`: the set of `\x7b\x7bName\x7d\x7d`
groups appearing in a string. -/
def refsInString (s : String) : List String :=
  (scanMatches s.toList).foldl (fun acc nm => sinsert acc (String.mk nm)) []

mutual

/-- `get_variable_references_in_object`: recursively collect variable
references from a string, from every value of a dict (keys are never
scanned), or from every item of a list; any other value contributes
nothing. -/
def refsOfValue : JValue → List String
  | .str s => refsInString s
  | .num _ => []
  | .bool _ => []
  | .null => []
  | .arr items => refsOfList items
  | .obj fields => refsOfObj fields

/-- Union of the scans of the items of a list. -/
def refsOfList : JList → List String
  | .nil => []
  | .cons v tl => sunion (refsOfValue v) (refsOfList tl)

/-- Union of the scans of the values of a dict. -/
def refsOfObj : JObj → List String
  | .nil => []
  | .cons _ v tl => sunion (refsOfValue v) (refsOfObj tl)

end

/-! ## Occurrence Counter -/

/-- Python `str.count(pattern)` for a nonempty pattern: the number of
non-overlapping occurrences, scanning left to right.  Each step consumes
at least one character of the haystack, so fuel equal to the haystack
length is never exhausted. -/
def countLoop (pat : List Char) : Nat → List Char → Nat
  | 0, _ => 0
  | _ + 1, [] => 0
  | fuel + 1, c :: t =>
    if pat.isPrefixOf (c :: t) then 1 + countLoop pat fuel ((c :: t).drop pat.length)
    else countLoop pat fuel t

/-- Python `haystack.count(pat)`.  The analyzer only calls this with the
nonempty pattern `'\x7b\x7b' + name + '\x7d\x7d'`; the empty-pattern
convention of Python (`len + 1`) is included for faithfulness. -/
def strCount (hay pat : List Char) : Nat :=
  if pat.isEmpty then hay.length + 1 else countLoop pat hay.length hay

/-- The literal pattern `f'\x7b\x7b{var_name}\x7d\x7d'` from
`count_variable_occurrences_in_object`. -/
def bracePattern (name : String) : List Char :=
  ("\x7b\x7b" ++ name ++ "\x7d\x7d").toList

mutual

/-- `count_variable_occurrences_in_object`: total number of literal
`\x7b\x7bname\x7d\x7d` occurrences in all string content reachable from a
value. -/
def countOfValue (name : String) : JValue → Nat
  | .str s => strCount s.toList (bracePattern name)
  | .num _ => 0
  | .bool _ => 0
  | .null => 0
  | .arr items => countOfList name items
  | .obj fields => countOfObj name fields

/-- Occurrence count summed over the items of a list. -/
def countOfList (name : String) : JList → Nat
  | .nil => 0
  | .cons v tl => countOfValue name v + countOfList name tl

/-- Occurrence count summed over the values of a dict. -/
def countOfObj (name : String) : JObj → Nat
  | .nil => 0
  | .cons _ v tl => countOfValue name v + countOfObj name tl

end

/-! ## Container model

`GTMAnalyzer.__init__` reads `containerVersion` (default `\x7b\x7d`) and
its component collections (default `[]` each).  All analysis routines
iterate these collections and access components as dicts, so the loaded
container holds lists of `JObj`.  The folders and built-in-variable
collections are stored by `__init__` but never traversed by any routine
modelled here, so they are not part of the loaded state. -/

/-- The analyzer state after `__init__`: the six component collections
traversed by the analysis routines, plus the `include_paused_tags`
flag.  The field `vars` models `self.variables` (that identifier is a
reserved command name in Lean). -/
structure Container where
  vars : List JObj
  tags : List JObj
  triggers : List JObj
  transformations : List JObj
  clients : List JObj
  customTemplates : List JObj
  includePausedTags : Bool

/-- The six component categories checked by `find_unused_variables` and
`get_variable_usage_counts` (in the shared iteration order of both
routines). -/
inductive Cat where
  | tags
  | triggers
  | variables
  | transformations
  | clients
  | customTemplates
deriving DecidableEq

/-- The `component_type` string used by `get_variable_usage_counts` for
the default display name `f'Unnamed {component_type}'`. -/
def catPyName : Cat → String
  | .tags => "tags"
  | .triggers => "triggers"
  | .variables => "variables"
  | .transformations => "transformations"
  | .clients => "clients"
  | .customTemplates => "customTemplate"

/-- `component.get('paused', False)` under Python truthiness. -/
def isPausedTag (t : JObj) : Bool :=
  pyTruthy (jgetD t "paused" (.bool false))

/-- `var['name']` (every Variable in an export carries a string name;
see `getStrD`). -/
def varNameOf (v : JObj) : String :=
  getStrD v "name" ""

/-- The component stream iterated by both `find_unused_variables` and
`get_variable_usage_counts`: tags (skipping paused ones when
`include_paused_tags` is false), then triggers, variables,
transformations, clients and custom templates. -/
def checkedComponents (c : Container) : List (Cat × JObj) :=
  (c.tags.filterMap fun t =>
    if isPausedTag t && !c.includePausedTags then none else some (Cat.tags, t))
  ++ c.triggers.map (fun t => (Cat.triggers, t))
  ++ c.vars.map (fun v => (Cat.variables, v))
  ++ c.transformations.map (fun t => (Cat.transformations, t))
  ++ c.clients.map (fun cl => (Cat.clients, cl))
  ++ c.customTemplates.map (fun ct => (Cat.customTemplates, ct))

/-- The self-reference exclusion applied by both routines to components
of the variables category: `if component.get('name') in component_refs:
component_refs.discard(component['name'])`. -/
def selfAdjust (cat : Cat) (comp : JObj) (refs : List String) : List String :=
  if cat = Cat.variables then
    match jget comp "name" with
    | some (.str nm) => if nm ∈ refs then refs.filter (fun r => r ≠ nm) else refs
    | _ => refs
  else refs

/-- The reference set `find_unused_variables` derives from one
component: the recursive scan, minus the component's own name for
variable components. -/
def unusedRefs (cat : Cat) (comp : JObj) : List String :=
  selfAdjust cat comp (refsOfObj comp)

/-- The extra `templateData` scan `get_variable_usage_counts` performs
for custom templates (`component.get('templateData', '')`, scanned only
when it is a string). -/
def templateDataRefs (comp : JObj) : List String :=
  match jgetD comp "templateData" (.str "") with
  | .str s => refsInString s
  | _ => []

/-- The reference set `get_variable_usage_counts` derives from one
component: the recursive scan, extended with the `templateData` scan for
custom templates, minus the self-reference for variable components. -/
def usageRefs (cat : Cat) (comp : JObj) : List String :=
  selfAdjust cat comp
    (if cat = Cat.customTemplates then sunion (refsOfObj comp) (templateDataRefs comp)
     else refsOfObj comp)

/-- Association-list lookup (Python dict indexing). -/
def alookup {α β : Type} [DecidableEq α] : List (α × β) → α → Option β
  | [], _ => none
  | (k, v) :: tl, key => if k = key then some v else alookup tl key

/-- Python dict assignment `d[k] = v`: replace the existing binding in
place, else append (dicts preserve insertion order). -/
def aset {β : Type} : List (String × β) → String → β → List (String × β)
  | [], key, v => [(key, v)]
  | (k, w) :: tl, key, v =>
    if k = key then (k, v) :: tl else (k, w) :: aset tl key v

/-- Python in-place update `d[k] = f(d[k])` of an existing binding (the
analyzer guards every such update with a membership check). -/
def aupdate {β : Type} (f : β → β) : List (String × β) → String → List (String × β)
  | [], _ => []
  | (k, w) :: tl, key =>
    if k = key then (k, f w) :: tl else (k, w) :: aupdate f tl key

/-- Python counter update `d[k] = d.get(k, 0) + inc`. -/
def abump {α : Type} [DecidableEq α] : List (α × Nat) → α → Nat → List (α × Nat)
  | [], key, inc => [(key, inc)]
  | (k, n) :: tl, key, inc =>
    if k = key then (k, n + inc) :: tl else (k, n) :: abump tl key inc

/-- Fold the counter `b` into the counter `a` entry by entry (the
`for nested_ref, count in nested_refs.items(): all_refs[...] += count`
loops). -/
def mergeCounts {α : Type} [DecidableEq α] (a b : List (α × Nat)) : List (α × Nat) :=
  b.foldl (fun acc kv => abump acc kv.1 kv.2) a

/-! ## find_unused_variables -/

/-- The `\x7bname, variableId, type\x7d` summary `find_unused_variables`
emits for an unused variable. -/
structure VarSummary where
  name : String
  variableId : String
  vtype : String
deriving DecidableEq

/-- Summary record of one variable. -/
def varSummary (v : JObj) : VarSummary :=
  ⟨getStrD v "name" "", getStrD v "variableId" "", getStrD v "type" ""⟩

/-- The `referenced_variables` set of `find_unused_variables`: the union
of the per-component reference sets over the checked component stream.
(The routine also records per-reference locations, but those feed only
its optional debug printout.) -/
def referencedVariables (c : Container) : List String :=
  (checkedComponents c).foldl (fun acc cc => sunion acc (unusedRefs cc.1 cc.2)) []

/-- `find_unused_variables`: the variables whose name is not in
`referenced_variables`, in container order. -/
def findUnusedVariables (c : Container) : List VarSummary :=
  let referenced := referencedVariables c
  c.vars.filterMap fun v =>
    if varNameOf v ∈ referenced then none else some (varSummary v)

/-! ## get_variable_usage_counts -/

/-- The per-variable usage record: per-category counts of referencing
components, per-category display-name lists, and the total reference
(occurrence) count.  The derived display fields computed after the main
loop (`evaluation_contexts`, `potential_reevaluations`,
`minimum_reevaluations`) are functions of these counts and are not
modelled. -/
structure UsageRecord where
  locTags : Nat
  locTriggers : Nat
  locVariables : Nat
  locTransformations : Nat
  locClients : Nat
  locCustomTemplates : Nat
  compTags : List String
  compTriggers : List String
  compVariables : List String
  compTransformations : List String
  compClients : List String
  compCustomTemplates : List String
  totalReferences : Nat
deriving DecidableEq

/-- The zero-initialised usage record. -/
def initRecord : UsageRecord :=
  ⟨0, 0, 0, 0, 0, 0, [], [], [], [], [], [], 0⟩

/-- Record one referencing component: bump the category's location
count, append the component's display name to the category's list and
add the occurrence count to `total_references`. -/
def bumpRecord (r : UsageRecord) (cat : Cat) (occ : Nat) (nm : String) : UsageRecord :=
  match cat with
  | .tags =>
      { r with locTags := r.locTags + 1, compTags := r.compTags ++ [nm],
               totalReferences := r.totalReferences + occ }
  | .triggers =>
      { r with locTriggers := r.locTriggers + 1, compTriggers := r.compTriggers ++ [nm],
               totalReferences := r.totalReferences + occ }
  | .variables =>
      { r with locVariables := r.locVariables + 1, compVariables := r.compVariables ++ [nm],
               totalReferences := r.totalReferences + occ }
  | .transformations =>
      { r with locTransformations := r.locTransformations + 1,
               compTransformations := r.compTransformations ++ [nm],
               totalReferences := r.totalReferences + occ }
  | .clients =>
      { r with locClients := r.locClients + 1, compClients := r.compClients ++ [nm],
               totalReferences := r.totalReferences + occ }
  | .customTemplates =>
      { r with locCustomTemplates := r.locCustomTemplates + 1,
               compCustomTemplates := r.compCustomTemplates ++ [nm],
               totalReferences := r.totalReferences + occ }

/-- Does the string start with the given literal (Python
`str.startswith`)? -/
def strStarts (s p : String) : Bool :=
  p.toList.isPrefixOf s.toList

/-- The category under which a reference found in this component is
booked: references emitted by a variable whose own declared type is a
custom-template type (`cvt_...`) are attributed to the custom-templates
category. -/
def catKeyOf (cat : Cat) (comp : JObj) : Cat :=
  if cat = Cat.variables && strStarts (getStrD comp "type" "") "cvt_" then
    Cat.customTemplates
  else cat

/-- The display name recorded for a referencing component:
`component.get('name', f'Unnamed {component_type}')`, with a
`' (PAUSED)'` suffix for paused tags. -/
def displayNameFor (cat : Cat) (comp : JObj) : String :=
  let base := getStrD comp "name" ("Unnamed " ++ catPyName cat)
  if cat = Cat.tags && isPausedTag comp then base ++ " (PAUSED)" else base

/-- Process one reference name found in a component: if the name is a
known variable and the literal occurrence count in the component is
positive, bump that variable's record. -/
def processRef (cat : Cat) (comp : JObj) (m : List (String × UsageRecord))
    (n : String) : List (String × UsageRecord) :=
  if (alookup m n).isSome then
    if 0 < countOfObj n comp then
      aupdate (fun r => bumpRecord r (catKeyOf cat comp) (countOfObj n comp)
        (displayNameFor cat comp)) m n
    else m
  else m

/-- Process one component of the checked stream: fold `processRef` over
its reference set.  (The reference set is duplicate-free and each name
updates only its own entry, so the result does not depend on Python's
set iteration order.) -/
def processComp (m : List (String × UsageRecord)) (cc : Cat × JObj) :
    List (String × UsageRecord) :=
  (usageRefs cc.1 cc.2).foldl (processRef cc.1 cc.2) m

/-- The initial usage map: one zero record per variable name. -/
def initUsage (c : Container) : List (String × UsageRecord) :=
  c.vars.foldl (fun m v => aset m (varNameOf v) initRecord) []

/-- `get_variable_usage_counts`: initialise a record per variable, then
process every checked component. -/
def getVariableUsageCounts (c : Container) : List (String × UsageRecord) :=
  (checkedComponents c).foldl processComp (initUsage c)

/-- The `total_references` of a name in a usage map (0 when absent). -/
def totalRefsOf (m : List (String × UsageRecord)) (n : String) : Nat :=
  match alookup m n with
  | some r => r.totalReferences
  | none => 0

/-! ## find_duplicate_variables -/

/-- The seven duplicate buckets of `find_duplicate_variables`. -/
inductive Bucket where
  | dataLayer
  | eventData
  | cookie
  | jsVariable
  | url
  | customTemplate
  | other
deriving DecidableEq

/-- Dict assignment on `==`-keyed association lists (used for
`key_info`, whose keys are the `param.get('key')` values). -/
def kiSet : List (JValue × JValue) → JValue → JValue → List (JValue × JValue)
  | [], k, v => [(k, v)]
  | (k', v') :: tl, k, v =>
    if jeqV k' k then (k', v) :: tl else (k', v') :: kiSet tl k v

/-- The `key_info` dict built from a variable's `parameter` list:
`key_info[param.get('key')] = param.get('value')` (missing keys or
values are Python `None`, i.e. JSON null; non-dict parameter entries do
not occur in exports and contribute nothing). -/
def keyInfoOf (params : JValue) : List (JValue × JValue) :=
  let items := match params with | .arr l => l.toList | _ => []
  items.foldl
    (fun ki p =>
      match p with
      | .obj fields => kiSet ki (jgetD fields "key" .null) (jgetD fields "value" .null)
      | _ => ki)
    []

/-- Dict lookup `key_info[k]` with a string key. -/
def kiGet (ki : List (JValue × JValue)) (k : String) : Option JValue :=
  match ki.find? (fun p => jeqV p.1 (.str k)) with
  | some p => some p.2
  | none => none

/-- Dict lookup `key_info.get(k, default)` with a string key. -/
def kiGetD (ki : List (JValue × JValue)) (k : String) (dflt : JValue) : JValue :=
  (kiGet ki k).getD dflt

/-- Membership test `k in key_info` with a string key. -/
def kiHas (ki : List (JValue × JValue)) (k : String) : Bool :=
  (kiGet ki k).isSome

/-- Code-point comparison of characters (Python string ordering). -/
def charLe (a b : Char) : Bool := a.toNat ≤ b.toNat

/-- Lexicographic code-point comparison of strings (Python `<=`). -/
def strLeAux : List Char → List Char → Bool
  | [], _ => true
  | _ :: _, [] => false
  | a :: as, b :: bs => if a = b then strLeAux as bs else charLe a b

/-- Python `s1 <= s2` on strings. -/
def strLe (a b : String) : Bool := strLeAux a.toList b.toList

/-- Insertion step of `sorted` (insertion sort; duplicates are
identical strings, so stability is immaterial). -/
def insertAsc (x : String) : List String → List String
  | [] => [x]
  | y :: tl => if strLe x y then x :: y :: tl else y :: insertAsc x tl

/-- Python `sorted` on a list of strings. -/
def sortAsc (l : List String) : List String := l.foldr insertAsc []

/-- Python `'|'.join(parts)`. -/
def joinBar : List String → String
  | [] => ""
  | [x] => x
  | x :: y :: tl => x ++ "|" ++ joinBar (y :: tl)

/-- `extract_format_value_info`: `None` (modelled as JSON null) for a
falsy `formatValue`, otherwise the label/value summary dict of the
conversion options present, or `None` when none is present. -/
def extractFormatValueInfo (fv : JValue) : JValue :=
  if !pyTruthy fv then .null
  else match fv with
    | .obj fields =>
      let conversions : List (String × String) :=
        [("convertNullToValue", "Convert NULL to"),
         ("convertUndefinedToValue", "Convert undefined to"),
         ("convertTrueToValue", "Convert true to"),
         ("convertFalseToValue", "Convert false to"),
         ("caseConversionType", "Case conversion"),
         ("convertNaNToValue", "Convert NaN to"),
         ("convertEmptyToValue", "Convert empty to")]
      let info := conversions.foldl
        (fun info kl =>
          match jget fields kl.1 with
          | some value =>
            let value := match value with
              | .obj vf => match jget vf "value" with | some inner => inner | none => .obj vf
              | other => other
            info ++ [(kl.2, value)]
          | none => info)
        []
      match info with
      | [] => .null
      | _ => .obj (toJObj info)
    | _ => .null

/-- The classification step of `find_duplicate_variables` for one
variable: the bucket it falls into, the semantic grouping key, and the
summary entry appended to that group — or `none` when the variable's
type has no grouping rule or lacks the rule's required parameter. -/
def classifyVar (v : JObj) : Option (Bucket × String × JObj) :=
  let ki := keyInfoOf (jgetD v "parameter" (.arr .nil))
  let formatInfo := extractFormatValueInfo (jgetD v "formatValue" (.obj .nil))
  let nameV := jgetD v "name" .null
  let idV := jgetD v "variableId" .null
  match jget v "type" with
  | some (.str t) =>
    if t = "v" then
      if kiHas ki "name" then
        let pathV := kiGetD ki "name" .null
        let versionV := kiGetD ki "dataLayerVersion" (.str "2")
        some (Bucket.dataLayer,
          "datalayer|" ++ pyStr pathV ++ "|v" ++ pyStr versionV,
          toJObj [("name", nameV), ("variableId", idV), ("type", .str t),
                  ("path", pathV), ("version", versionV),
                  ("defaultValue", kiGetD ki "defaultValue" (.str "")),
                  ("formatValue", formatInfo)])
      else none
    else if t = "ed" then
      if kiHas ki "keyPath" then
        let keyPathV := kiGetD ki "keyPath" .null
        some (Bucket.eventData,
          "eventdata|" ++ pyStr keyPathV,
          toJObj [("name", nameV), ("variableId", idV), ("type", .str t),
                  ("keyPath", keyPathV),
                  ("defaultValue", kiGetD ki "defaultValue" (.str "")),
                  ("formatValue", formatInfo)])
      else none
    else if t = "k" then
      if kiHas ki "name" then
        let cookieV := kiGetD ki "name" .null
        some (Bucket.cookie,
          "cookie|" ++ pyStr cookieV,
          toJObj [("name", nameV), ("variableId", idV), ("type", .str t),
                  ("cookieName", cookieV), ("formatValue", formatInfo)])
      else none
    else if t = "j" then
      if kiHas ki "name" then
        let jsV := kiGetD ki "name" .null
        some (Bucket.jsVariable,
          "jsvar|" ++ pyStr jsV,
          toJObj [("name", nameV), ("variableId", idV), ("type", .str t),
                  ("jsVarName", jsV), ("formatValue", formatInfo)])
      else none
    else if t = "u" then
      let componentV := kiGetD ki "component" (.str "UNSPECIFIED")
      let queryKeyV := kiGetD ki "queryKey" (.str "")
      let customV := kiGetD ki "customUrlSource" (.str "")
      let key :=
        if pyTruthy queryKeyV then "url|" ++ pyStr componentV ++ "|" ++ pyStr queryKeyV
        else if pyTruthy customV then "url|" ++ pyStr componentV ++ "|" ++ pyStr customV
        else "url|" ++ pyStr componentV
      some (Bucket.url, key,
        toJObj [("name", nameV), ("variableId", idV), ("type", .str t),
                ("component", componentV), ("queryKey", queryKeyV),
                ("formatValue", formatInfo)])
    else if pyTruthy (.str t) && strStarts t "cvt_" then
      let candidates := ["queryParamName", "pageLocation", "keyPath", "name", "key"]
      let parts := candidates.filterMap
        (fun p => if kiHas ki p then some (p ++ ":" ++ pyStr (kiGetD ki p .null)) else none)
      match parts with
      | [] => none
      | _ =>
        some (Bucket.customTemplate,
          "custom|" ++ t ++ "|" ++ joinBar (sortAsc parts),
          toJObj [("name", nameV), ("variableId", idV), ("type", .str t),
                  ("parameters", .obj (toJObj (ki.map (fun p => (pyStr p.1, p.2))))),
                  ("formatValue", formatInfo)])
    else none
  | _ => none

/-- The inner `defaultdict(list)` append of `find_duplicate_variables`:
append the entry to its key's group, creating the group at the end on
first sight of the key. -/
def appendGroup : List ((Bucket × String) × List JObj) → Bucket × String → JObj →
    List ((Bucket × String) × List JObj)
  | [], key, e => [(key, [e])]
  | (k, g) :: tl, key, e =>
    if k = key then (k, g ++ [e]) :: tl else (k, g) :: appendGroup tl key e

/-- The grouping pass of `find_duplicate_variables`: classify each
variable in container order and collect the groups in key-insertion
order. -/
def buildGroups (vars : List JObj) : List ((Bucket × String) × List JObj) :=
  vars.foldl
    (fun gs v =>
      match classifyVar v with
      | some (b, k, e) => appendGroup gs (b, k) e
      | none => gs)
    []

/-- `find_duplicate_variables`, for one bucket: the groups of that
bucket holding more than one variable, in key-insertion order.  (The
`other_duplicates` bucket exists in the result dict but no rule ever
feeds it.) -/
def findDuplicateVariables (c : Container) (b : Bucket) : List (List JObj) :=
  (buildGroups c.vars).filterMap
    (fun kg => if kg.1.1 = b && decide (1 < kg.2.length) then some kg.2 else none)

/-! ## get_all_variable_references_recursive -/

/-- One level of `get_all_variable_references_recursive`: stop when the
name is in the path-scoped visited set, or when no variable has the
name; otherwise count each direct reference once and merge the counts of
its recursive expansion, passing the extended visited set to every
branch.  Each recursion level adds a distinct container-variable name to
the visited set, so the recursion depth never exceeds the number of
variables and fuel `vars.length + 1` is never exhausted. -/
def resolveLoop (vars : List JObj) : Nat → String → List String → List (String × Nat)
  | 0, _, _ => []
  | fuel + 1, name, visited =>
    if name ∈ visited then []
    else
      match vars.find? (fun v => varNameOf v = name) with
      | none => []
      | some var =>
        let visited' := name :: visited
        (refsOfObj var).foldl
          (fun acc ref =>
            mergeCounts (abump acc ref 1) (resolveLoop vars fuel ref visited'))
          []

/-- `get_all_variable_references_recursive` (fresh calls pass an empty
visited set). -/
def getAllVariableReferencesRecursive (vars : List JObj) (name : String)
    (visited : List String) : List (String × Nat) :=
  resolveLoop vars (vars.length + 1) name visited

/-! ## analyze_tag_evaluation_impact -/

/-- Python `tag.get('type', '').split('_')[-1]`: the suffix after the
last underscore (the whole string when it has none). -/
def afterLastUnderscore (s : String) : String :=
  String.mk ((s.toList.reverse.takeWhile (fun c => c ≠ '_')).reverse)

/-- The `templateData` references pulled in for a custom-template tag:
locate the template whose `templateId` equals the suffix of the tag's
type and scan its `templateData` string. -/
def cvtTemplateRefs (templates : List JObj) (tagType : String) : List String :=
  let templateId := afterLastUnderscore tagType
  match templates.find? (fun t => jeqV (jgetD t "templateId" .null) (.str templateId)) with
  | some tpl =>
    match jgetD tpl "templateData" (.str "") with
    | .str s => refsInString s
    | _ => []
  | none => []

/-- `tag.get('transformation', tag.get('transformations', []))`. -/
def tagTransformations (tag : JObj) : JValue :=
  match jget tag "transformation" with
  | some v => v
  | none => jgetD tag "transformations" (.arr .nil)

/-- Per-tag detail of `analyze_tag_evaluation_impact` (the direct
reference set and the direct-plus-transitive counts; the display-only
transformation/template metadata sublists are not modelled). -/
structure TagDetail where
  name : String
  directVariables : List String
  allVariables : List (String × Nat)
deriving DecidableEq

/-- The counting results of `analyze_tag_evaluation_impact`.  The
display-only per-type aggregations built from human-readable type-name
lookup tables are not modelled. -/
structure TagImpact where
  totalEvaluations : Nat
  evaluationsByVariable : List (String × Nat)
  tagsAnalyzed : Nat
  transformationsProcessed : Nat
  customTemplatesProcessed : Nat
  tagDetails : List TagDetail
deriving DecidableEq

/-- The zero impact accumulator. -/
def emptyTagImpact : TagImpact := ⟨0, [], 0, 0, 0, []⟩

/-- Expand a direct-reference set into the per-component
`all_variables` counter: one count per direct reference plus its
transitive counts. -/
def allVariablesOf (vars : List JObj) (direct : List String) : List (String × Nat) :=
  direct.foldl
    (fun m n => mergeCounts (abump m n 1) (getAllVariableReferencesRecursive vars n []))
    []

/-- Processing of one tag by `analyze_tag_evaluation_impact`: paused
tags are skipped unconditionally; otherwise gather direct references
from the tag's custom-template data (when its type is a `cvt_` type),
its own nested values and its tag-level transformation list, expand them
transitively and accumulate the counts. -/
def processTagImpact (c : Container) (acc : TagImpact) (tag : JObj) : TagImpact :=
  if isPausedTag tag then acc
  else
    let tagType := getStrD tag "type" ""
    let isCvt := strStarts tagType "cvt_"
    let templateRefs := if isCvt then cvtTemplateRefs c.customTemplates tagType else []
    let direct := sunion (sunion [] templateRefs) (refsOfObj tag)
    let transItems := match tagTransformations tag with
      | .arr items => items.toList
      | _ => []
    let direct := transItems.foldl (fun d it => sunion d (refsOfValue it)) direct
    let allVars := allVariablesOf c.vars direct
    { totalEvaluations := acc.totalEvaluations + (allVars.map (fun kv => kv.2)).sum,
      evaluationsByVariable :=
        allVars.foldl (fun g kv => abump g kv.1 kv.2) acc.evaluationsByVariable,
      tagsAnalyzed := acc.tagsAnalyzed + 1,
      transformationsProcessed := acc.transformationsProcessed + transItems.length,
      customTemplatesProcessed := acc.customTemplatesProcessed + (if isCvt then 1 else 0),
      tagDetails := acc.tagDetails ++
        [⟨getStrD tag "name" "Unnamed Tag", direct, allVars⟩] }

/-- `analyze_tag_evaluation_impact`. -/
def analyzeTagEvaluationImpact (c : Container) : TagImpact :=
  c.tags.foldl (processTagImpact c) emptyTagImpact

/-! ## analyze_trigger_evaluation_impact -/

/-- The keys of the `trigger_to_tags` map: every firing-trigger id of
every non-paused tag.  (The mapped tag lists feed only the display-only
attached-tag metadata and are not modelled.) -/
def activeTriggerIds (c : Container) : List JValue :=
  c.tags.foldl
    (fun acc tag =>
      if isPausedTag tag then acc
      else
        match jgetD tag "firingTriggerId" (.arr .nil) with
        | .arr items => acc ++ items.toList
        | _ => acc)
    []

/-- Per-trigger detail of `analyze_trigger_evaluation_impact`. -/
structure TriggerDetail where
  name : String
  directVariables : List String
  allVariables : List (String × Nat)
deriving DecidableEq

/-- The counting results of `analyze_trigger_evaluation_impact` (the
display-only per-type and attached-tag aggregations are not
modelled). -/
structure TriggerImpact where
  totalEvaluations : Nat
  evaluationsByVariable : List (String × Nat)
  triggersAnalyzed : Nat
  triggerDetails : List TriggerDetail
deriving DecidableEq

/-- The zero trigger-impact accumulator. -/
def emptyTriggerImpact : TriggerImpact := ⟨0, [], 0, []⟩

/-- Processing of one trigger: skipped unless its id occurs among the
firing-trigger ids of some non-paused tag; otherwise its direct
references are expanded transitively and accumulated. -/
def processTriggerImpact (c : Container) (ids : List JValue) (acc : TriggerImpact)
    (trigger : JObj) : TriggerImpact :=
  let tid := jgetD trigger "triggerId" .null
  if ids.any (fun x => jeqV x tid) then
    let direct := refsOfObj trigger
    let allVars := allVariablesOf c.vars direct
    { totalEvaluations := acc.totalEvaluations + (allVars.map (fun kv => kv.2)).sum,
      evaluationsByVariable :=
        allVars.foldl (fun g kv => abump g kv.1 kv.2) acc.evaluationsByVariable,
      triggersAnalyzed := acc.triggersAnalyzed + 1,
      triggerDetails := acc.triggerDetails ++
        [⟨getStrD trigger "name" "Unnamed Trigger", direct, allVars⟩] }
  else acc

/-- `analyze_trigger_evaluation_impact`. -/
def analyzeTriggerEvaluationImpact (c : Container) : TriggerImpact :=
  c.triggers.foldl (processTriggerImpact c (activeTriggerIds c)) emptyTriggerImpact

/-! ## Loading a raw document (`__init__` plus collection traversal)

`__init__` itself never raises: it binds each collection with a
default-empty `get`.  Every analysis routine modelled above then
iterates the collections and accesses components as dicts; a non-list
collection value makes that first iteration raise (`TypeError` /
`AttributeError`) in Python.  `loadContainer` models `__init__`
together with this traversal contract: it yields the `Container` the
analysis routines see, or an error when a collection bound to a
non-list (or a non-dict component) would make them raise. -/

/-- Iterate one collection value: a JSON array of component dicts.  A
non-array value (or a non-dict component) is the case in which Python's
per-component `.get` access raises. -/
def iterComponents : JValue → Except Unit (List JObj)
  | .arr items =>
    items.toList.foldr
      (fun v acc =>
        match v, acc with
        | .obj fields, .ok tl => .ok (fields :: tl)
        | _, _ => .error ())
      (.ok [])
  | _ => .error ()

/-- `__init__` plus the collection-traversal contract of the analysis
routines: `containerVersion` defaults to an empty dict, each collection
defaults to an empty list, and a present non-dict `containerVersion` or
non-list collection is an error (Python raises at its first use). -/
def loadContainer (doc : JObj) (includePausedTags : Bool) : Except Unit Container :=
  match (match jget doc "containerVersion" with
         | none => Except.ok JObj.nil
         | some (.obj fields) => Except.ok fields
         | some _ => Except.error ()) with
  | .error e => .error e
  | .ok cv =>
    match iterComponents (jgetD cv "variable" (.arr .nil)) with
    | .error e => .error e
    | .ok vars =>
      match iterComponents (jgetD cv "tag" (.arr .nil)) with
      | .error e => .error e
      | .ok tags =>
        match iterComponents (jgetD cv "trigger" (.arr .nil)) with
        | .error e => .error e
        | .ok triggers =>
          match iterComponents (jgetD cv "transformation" (.arr .nil)) with
          | .error e => .error e
          | .ok transformations =>
            match iterComponents (jgetD cv "client" (.arr .nil)) with
            | .error e => .error e
            | .ok clients =>
              match iterComponents (jgetD cv "customTemplate" (.arr .nil)) with
              | .error e => .error e
              | .ok customTemplates =>
                .ok ⟨vars, tags, triggers, transformations, clients, customTemplates,
                  includePausedTags⟩

/-- The container every analysis routine sees for a document with no
(or an empty) `containerVersion`. -/
def emptyContainer (includePausedTags : Bool) : Container :=
  ⟨[], [], [], [], [], [], includePausedTags⟩

/-! ## Concrete test containers used by the witness and counterexample
theorems below -/

/-- Variable `A` whose parameter value references `B`. -/
def c2VA : JObj := toJObj [("name", .str "A"),
  ("parameter", .arr (toJList [.obj (toJObj [("key", .str "x"), ("value", .str "\x7b\x7bB\x7d\x7d")])]))]

/-- Variable `B` whose parameter value references `A` (mutual cycle with
`c2VA`). -/
def c2VB : JObj := toJObj [("name", .str "B"),
  ("parameter", .arr (toJList [.obj (toJObj [("key", .str "x"), ("value", .str "\x7b\x7bA\x7d\x7d")])]))]

/-- Diamond: `A` references `B` and `C`. -/
def c2DA : JObj := toJObj [("name", .str "A"), ("p", .str "\x7b\x7bB\x7d\x7d\x7b\x7bC\x7d\x7d")]

/-- Diamond: `B` references `D`. -/
def c2DB : JObj := toJObj [("name", .str "B"), ("p", .str "\x7b\x7bD\x7d\x7d")]

/-- Diamond: `C` references `D`. -/
def c2DC : JObj := toJObj [("name", .str "C"), ("p", .str "\x7b\x7bD\x7d\x7d")]

/-- Diamond: `D` references nothing. -/
def c2DD : JObj := toJObj [("name", .str "D")]

/-- A variable named `V` (referenced by `c4Tag`). -/
def c4V : JObj := toJObj [("name", .str "V"), ("variableId", .str "7"), ("type", .str "c")]

/-- A tag whose parameter value contains two occurrences of
`\x7b\x7bV\x7d\x7d`. -/
def c4Tag : JObj := toJObj [("name", .str "T"),
  ("parameter", .arr (toJList [.obj (toJObj [("value", .str "\x7b\x7bV\x7d\x7d and \x7b\x7bV\x7d\x7d")])]))]

/-- Container with variable `V` and the double-occurrence tag. -/
def c4C : Container := ⟨[c4V], [c4Tag], [], [], [], [], true⟩

/-- A variable named `A` (referenced by the paused tag `c5Tag`). -/
def c5V : JObj := toJObj [("name", .str "A"), ("variableId", .str "1"), ("type", .str "c")]

/-- A paused tag referencing `A`. -/
def c5Tag : JObj := toJObj [("name", .str "PT"), ("paused", .bool true),
  ("parameter", .arr (toJList [.obj (toJObj [("value", .str "\x7b\x7bA\x7d\x7d")])]))]

/-- A variable used nowhere (for the unused-detection witness). -/
def c3V : JObj := toJObj [("name", .str "X"), ("variableId", .str "9"), ("type", .str "c")]

/-- Container holding only the unused variable `X`. -/
def c3C : Container := ⟨[c3V], [], [], [], [], [], true⟩

/-- A paused tag that references `A` and fires trigger `t1` (for the
evaluation-impact counterexample). -/
def c6Tag : JObj := toJObj [("name", .str "PT"), ("paused", .bool true),
  ("parameter", .arr (toJList [.obj (toJObj [("value", .str "\x7b\x7bA\x7d\x7d")])])),
  ("firingTriggerId", .arr (toJList [.str "t1"]))]

/-- The trigger `t1`, attached only to the paused tag `c6Tag`, itself
referencing `A`. -/
def c6Trig : JObj := toJObj [("triggerId", .str "t1"), ("name", .str "TR"),
  ("customEventFilter", .arr (toJList [.obj (toJObj [("arg0", .str "\x7b\x7bA\x7d\x7d")])]))]

/-- A variable named `A` for the impact counterexample. -/
def c6V : JObj := toJObj [("name", .str "A"), ("variableId", .str "1"), ("type", .str "c")]

/-- Container with only a paused tag (referencing `A`) and a trigger
attached only to that paused tag, analysed with
`include_paused_tags = True`. -/
def c6C : Container := ⟨[c6V], [c6Tag], [c6Trig], [], [], [], true⟩

/-- A variable that references itself (and nothing else references
it). -/
def c7V : JObj := toJObj [("name", .str "S"), ("variableId", .str "3"), ("type", .str "jsm"),
  ("parameter", .arr (toJList [.obj (toJObj [("key", .str "javascript"), ("value", .str "return \x7b\x7bS\x7d\x7d")])]))]

/-- Event-data variable `EA` with `keyPath = foo`. -/
def c8VA : JObj := toJObj [("name", .str "EA"), ("variableId", .str "1"), ("type", .str "ed"),
  ("parameter", .arr (toJList [.obj (toJObj [("key", .str "keyPath"), ("value", .str "foo")])]))]

/-- Event-data variable `EB` with the same `keyPath = foo`. -/
def c8VB : JObj := toJObj [("name", .str "EB"), ("variableId", .str "2"), ("type", .str "ed"),
  ("parameter", .arr (toJList [.obj (toJObj [("key", .str "keyPath"), ("value", .str "foo")])]))]

/-- Container with the two duplicate event-data variables. -/
def c8C : Container := ⟨[c8VA, c8VB], [], [], [], [], [], true⟩

/-- A document whose `containerVersion.variable` is the number `5`
instead of a list. -/
def c9BadDoc : JObj := toJObj [("containerVersion", .obj (toJObj [("variable", .num 5)]))]

/-- A document with a `containerVersion` that has no collection keys. -/
def c9EmptyCV : JObj := toJObj [("containerVersion", .obj .nil)]

/-- A lone variable named `A` (for the unknown-name resolver witness). -/
def c10V : JObj := toJObj [("name", .str "A"), ("p", .str "\x7b\x7bMissing\x7d\x7d")]

/-- Does the pattern occur contiguously in the list (checked at every
suffix)? -/
def infixCheck (pat : List Char) : List Char → Bool
  | [] => pat.isEmpty
  | c :: t => pat.isPrefixOf (c :: t) || infixCheck pat t

/-- The claim-side characterisation of the Reference Scanner from the
specification's words: a name is reported for `s` exactly when it is a
nonempty closing-brace-free span wrapped in double braces somewhere in
`s`.  (Second definition, written from the spec for comparison with
`refsInString`, which is written from the source.) -/
def specBraceSpan (s X : String) : Prop :=
  X ≠ "" ∧ X.toList.all (fun c => c ≠ rbrace) = true ∧
    infixCheck ("\x7b\x7b" ++ X ++ "\x7d\x7d").toList s.toList = true

/-- Infix occurrence of a character pattern in a character list. -/
def InfixOf (pat l : List Char) : Prop :=
  ∃ pre post, l = pre ++ pat ++ post

/-- The contribution of one checked component to a known variable
name's `total_references`: the occurrence count when the name is in the
component's reference set and occurs literally, else zero. -/
def contribOf (n : String) (cc : Cat × JObj) : Nat :=
  if n ∈ usageRefs cc.1 cc.2 ∧ 0 < countOfObj n cc.2 then countOfObj n cc.2 else 0

/-- The variables of a container that share a given duplicate-grouping
bucket and key, in container order (what one reported group should
hold). -/
def collectGroup (vars : List JObj) (key : Bucket × String) : List JObj :=
  vars.filterMap fun v =>
    match classifyVar v with
    | some (b, k, e) => if (b, k) = key then some e else none
    | none => none

/-- The container with its paused tags removed (used to state the
paused-tag-policy theorems). -/
def removePausedTags (c : Container) : Container :=
  { c with tags := c.tags.filter (fun t => !isPausedTag t) }

/-! ## Lemmas about the scanner -/

theorem mem_sinsert {l : List String} {x y : String} :
    x ∈ sinsert l y ↔ x ∈ l ∨ x = y := by
  unfold sinsert
  split
  · constructor
    · exact fun h => Or.inl h
    · rintro (h | rfl)
      · exact h
      · assumption
  · simp [List.mem_append]

theorem nodup_sinsert {l : List String} (h : l.Nodup) (y : String) :
    (sinsert l y).Nodup := by
  unfold sinsert
  split
  · exact h
  · simpa [List.nodup_append] using ⟨h, by assumption⟩

theorem mem_sunion {a b : List String} {x : String} :
    x ∈ sunion a b ↔ x ∈ a ∨ x ∈ b := by
  unfold sunion
  induction b generalizing a with
  | nil => simp
  | cons y tl ih =>
    simp only [List.foldl_cons]
    rw [ih, mem_sinsert]
    constructor
    · rintro ((h | rfl) | h)
      · exact Or.inl h
      · exact Or.inr (List.mem_cons_self _ _)
      · exact Or.inr (List.mem_cons_of_mem _ h)
    · rintro (h | h)
      · exact Or.inl (Or.inl h)
      · rcases List.mem_cons.mp h with rfl | h
        · exact Or.inl (Or.inr rfl)
        · exact Or.inr h

theorem nodup_sunion {a : List String} (h : a.Nodup) (b : List String) :
    (sunion a b).Nodup := by
  unfold sunion
  induction b generalizing a with
  | nil => exact h
  | cons y tl ih => exact ih (nodup_sinsert h y)

theorem tryMatch_some {l nm rest : List Char} (h : tryMatch l = some (nm, rest)) :
    l = lbrace :: lbrace :: (nm ++ rbrace :: rbrace :: rest) ∧ nm ≠ [] ∧
      ∀ c ∈ nm, c ≠ rbrace := by
  match l with
  | [] => simp [tryMatch] at h
  | [a] => simp [tryMatch] at h
  | a :: b :: t =>
    have hsplit := List.takeWhile_append_dropWhile (p := fun c => decide (c ≠ rbrace)) (l := t)
    simp only [tryMatch] at h
    split at h
    case isTrue hab =>
      split at h
      case h_1 c d rest' heq =>
        split at h
        case isTrue hcd =>
          simp only [Option.some.injEq, Prod.mk.injEq] at h
          obtain ⟨h1, h2⟩ := h
          obtain ⟨ha, hb⟩ : a = lbrace ∧ b = lbrace := by simpa using hab
          rw [h1] at hcd
          obtain ⟨⟨hc, hd⟩, hne⟩ : (c = rbrace ∧ d = rbrace) ∧ nm.isEmpty = false := by
            simpa using hcd
          subst ha; subst hb; subst hc; subst hd; subst h2
          rw [h1, heq] at hsplit
          refine ⟨by rw [← hsplit], ?_, ?_⟩
          · simpa [List.isEmpty_iff] using hne
          · intro ch hch
            rw [← h1] at hch
            simpa using List.mem_takeWhile_imp hch
        case isFalse => exact absurd h (by simp)
      case h_2 => exact absurd h (by simp)
    case isFalse => exact absurd h (by simp)

theorem infixOf_cons {pat l : List Char} (c : Char) (h : InfixOf pat l) :
    InfixOf pat (c :: l) := by
  obtain ⟨pre, post, rfl⟩ := h
  exact ⟨c :: pre, post, rfl⟩

theorem scanLoop_sound {fuel : Nat} {l nm : List Char}
    (h : nm ∈ scanLoop fuel l) :
    nm ≠ [] ∧ (∀ c ∈ nm, c ≠ rbrace) ∧
      InfixOf (lbrace :: lbrace :: (nm ++ [rbrace, rbrace])) l := by
  induction fuel generalizing l with
  | zero => simp [scanLoop] at h
  | succ fuel ih =>
    match l with
    | [] => simp [scanLoop] at h
    | c :: rest =>
      simp only [scanLoop] at h
      split at h
      case h_1 nm' after heq =>
        obtain ⟨hdec, hne, hnb⟩ := tryMatch_some heq
        rcases List.mem_cons.mp h with rfl | hmem
        · refine ⟨hne, hnb, [], after, ?_⟩
          rw [hdec]
          simp
        · obtain ⟨hne2, hnb2, pre, post, hpp⟩ := ih hmem
          refine ⟨hne2, hnb2, lbrace :: lbrace :: (nm' ++ rbrace :: rbrace :: pre), post, ?_⟩
          rw [hdec, hpp]
          simp
      case h_2 =>
        obtain ⟨hne2, hnb2, hinf⟩ := ih h
        exact ⟨hne2, hnb2, infixOf_cons c hinf⟩

theorem mem_refsInString {s : String} {x : String} :
    x ∈ refsInString s ↔ ∃ nm ∈ scanMatches s.toList, x = String.mk nm := by
  unfold refsInString
  generalize scanMatches s.toList = ms
  suffices h : ∀ (ms : List (List Char)) (acc : List String),
      x ∈ ms.foldl (fun acc nm => sinsert acc (String.mk nm)) acc ↔
        x ∈ acc ∨ ∃ nm ∈ ms, x = String.mk nm by
    simpa using h ms []
  intro ms
  induction ms with
  | nil => simp
  | cons nm tl ih =>
    intro acc
    simp only [List.foldl_cons]
    rw [ih, mem_sinsert]
    constructor
    · rintro ((h | rfl) | ⟨nm', hnm', rfl⟩)
      · exact Or.inl h
      · exact Or.inr ⟨nm, List.mem_cons_self _ _, rfl⟩
      · exact Or.inr ⟨nm', List.mem_cons_of_mem _ hnm', rfl⟩
    · rintro (h | ⟨nm', hnm', rfl⟩)
      · exact Or.inl (Or.inl h)
      · rcases List.mem_cons.mp hnm' with rfl | h'
        · exact Or.inl (Or.inr rfl)
        · exact Or.inr ⟨nm', h', rfl⟩

theorem nodup_refsInString (s : String) : (refsInString s).Nodup := by
  unfold refsInString
  generalize scanMatches s.toList = ms
  suffices h : ∀ (ms : List (List Char)) (acc : List String), acc.Nodup →
      (ms.foldl (fun acc nm => sinsert acc (String.mk nm)) acc).Nodup by
    exact h ms [] List.nodup_nil
  intro ms
  induction ms with
  | nil => exact fun acc h => h
  | cons nm tl ih => exact fun acc h => ih _ (nodup_sinsert h _)

theorem toList_mk (l : List Char) : (String.mk l).toList = l := rfl

theorem bracePattern_eq (n : String) :
    bracePattern n = lbrace :: lbrace :: (n.toList ++ [rbrace, rbrace]) := by
  show ("\x7b\x7b" ++ n ++ "\x7d\x7d").data = _
  simp [String.data_append]
  exact ⟨rfl, rfl⟩

theorem refsInString_sound {s X : String} (h : X ∈ refsInString s) :
    X ≠ "" ∧ (∀ c ∈ X.toList, c ≠ rbrace) ∧ InfixOf (bracePattern X) s.toList := by
  obtain ⟨nm, hnm, rfl⟩ := mem_refsInString.mp h
  obtain ⟨hne, hnb, hinf⟩ := scanLoop_sound hnm
  refine ⟨?_, ?_, ?_⟩
  · intro hcon
    exact hne (congrArg String.toList hcon)
  · simpa [toList_mk] using hnb
  · rw [bracePattern_eq, toList_mk]
    exact hinf

theorem isPrefixOf_append (p t : List Char) : p.isPrefixOf (p ++ t) = true := by
  induction p with
  | nil => simp [List.isPrefixOf]
  | cons a as ih => simp [List.isPrefixOf, ih]

theorem infixCheck_of_infixOf {pat l : List Char} (h : InfixOf pat l) :
    infixCheck pat l = true := by
  obtain ⟨pre, post, rfl⟩ := h
  induction pre with
  | nil =>
    simp only [List.nil_append]
    cases hm : pat ++ post with
    | nil =>
      have hp : pat = [] := by
        cases pat with
        | nil => rfl
        | cons a as => simp at hm
      simp [hp, infixCheck]
    | cons c t =>
      have hpre : pat.isPrefixOf (c :: t) = true := by
        rw [← hm]
        exact isPrefixOf_append pat post
      simp [infixCheck, hpre]
  | cons x pre' ih =>
    simp only [List.cons_append]
    rw [infixCheck.eq_def]
    rw [Bool.or_eq_true]
    right
    exact ih

theorem infixOf_of_cons {pat : List Char} {c : Char} {t : List Char}
    (h : InfixOf pat (c :: t)) (hp : pat.isPrefixOf (c :: t) = false) :
    InfixOf pat t := by
  obtain ⟨pre, post, hl⟩ := h
  cases pre with
  | nil =>
    exfalso
    simp only [List.nil_append] at hl
    rw [hl, isPrefixOf_append] at hp
    simp at hp
  | cons x pre' =>
    simp only [List.cons_append, List.cons.injEq] at hl
    exact ⟨pre', post, hl.2⟩

theorem countLoop_pos {pat : List Char} (hne : pat ≠ []) :
    ∀ {fuel : Nat} {l : List Char}, l.length ≤ fuel → InfixOf pat l →
      1 ≤ countLoop pat fuel l := by
  intro fuel
  induction fuel with
  | zero =>
    intro l hlen hinf
    obtain ⟨pre, post, hl⟩ := hinf
    rw [List.length_eq_zero.mp (Nat.le_zero.mp hlen)] at hl
    rcases List.append_eq_nil.mp (List.append_eq_nil.mp hl.symm).1 with ⟨_, h2⟩
    exact absurd h2 hne
  | succ fuel ih =>
    intro l hlen hinf
    match l with
    | [] =>
      obtain ⟨pre, post, hl⟩ := hinf
      rcases List.append_eq_nil.mp (List.append_eq_nil.mp hl.symm).1 with ⟨_, h2⟩
      exact absurd h2 hne
    | c :: t =>
      rw [countLoop]
      cases hp : pat.isPrefixOf (c :: t) with
      | true => simp
      | false =>
        simp only [hp, Bool.false_eq_true, if_false]
        exact ih (Nat.le_of_succ_le_succ hlen) (infixOf_of_cons hinf hp)

theorem strCount_pos {pat l : List Char} (hne : pat ≠ []) (hinf : InfixOf pat l) :
    1 ≤ strCount l pat := by
  unfold strCount
  rw [if_neg (by simpa [List.isEmpty_iff] using hne)]
  exact countLoop_pos hne (Nat.le_refl _) hinf

theorem bracePattern_ne_nil (n : String) : bracePattern n ≠ [] := by
  rw [bracePattern_eq]
  simp

mutual

theorem memRefs_count_value {n : String} {v : JValue} (h : n ∈ refsOfValue v) :
    1 ≤ countOfValue n v := by
  cases v with
  | str s =>
    obtain ⟨_, _, hinf⟩ := refsInString_sound (by simpa [refsOfValue] using h)
    exact strCount_pos (bracePattern_ne_nil n) hinf
  | num m => simp [refsOfValue] at h
  | bool b => simp [refsOfValue] at h
  | null => simp [refsOfValue] at h
  | arr items => exact memRefs_count_list (by simpa [refsOfValue] using h)
  | obj fields => exact memRefs_count_obj (by simpa [refsOfValue] using h)

theorem memRefs_count_list {n : String} {l : JList} (h : n ∈ refsOfList l) :
    1 ≤ countOfList n l := by
  cases l with
  | nil => simp [refsOfList] at h
  | cons v tl =>
    rw [countOfList]
    rcases mem_sunion.mp (by simpa [refsOfList] using h) with h' | h'
    · exact Nat.le_add_right_of_le (memRefs_count_value h')
    · exact Nat.le_trans (memRefs_count_list h') (Nat.le_add_left _ _)

theorem memRefs_count_obj {n : String} {o : JObj} (h : n ∈ refsOfObj o) :
    1 ≤ countOfObj n o := by
  cases o with
  | nil => simp [refsOfObj] at h
  | cons k v tl =>
    rw [countOfObj]
    rcases mem_sunion.mp (by simpa [refsOfObj] using h) with h' | h'
    · exact Nat.le_add_right_of_le (memRefs_count_value h')
    · exact Nat.le_trans (memRefs_count_obj h') (Nat.le_add_left _ _)

end

mutual

theorem nodup_refsOfValue (v : JValue) : (refsOfValue v).Nodup := by
  cases v with
  | str s => exact nodup_refsInString s
  | num m => exact List.nodup_nil
  | bool b => exact List.nodup_nil
  | null => exact List.nodup_nil
  | arr items => exact nodup_refsOfList items
  | obj fields => exact nodup_refsOfObj fields

theorem nodup_refsOfList (l : JList) : (refsOfList l).Nodup := by
  cases l with
  | nil => exact List.nodup_nil
  | cons v tl => exact nodup_sunion (nodup_refsOfValue v) _

theorem nodup_refsOfObj (o : JObj) : (refsOfObj o).Nodup := by
  cases o with
  | nil => exact List.nodup_nil
  | cons k v tl => exact nodup_sunion (nodup_refsOfValue v) _

end

mutual

theorem ne_empty_of_mem_refs_value {n : String} {v : JValue} (h : n ∈ refsOfValue v) :
    n ≠ "" := by
  cases v with
  | str s => exact (refsInString_sound (by simpa [refsOfValue] using h)).1
  | num m => simp [refsOfValue] at h
  | bool b => simp [refsOfValue] at h
  | null => simp [refsOfValue] at h
  | arr items => exact ne_empty_of_mem_refs_list (by simpa [refsOfValue] using h)
  | obj fields => exact ne_empty_of_mem_refs_obj (by simpa [refsOfValue] using h)

theorem ne_empty_of_mem_refs_list {n : String} {l : JList} (h : n ∈ refsOfList l) :
    n ≠ "" := by
  cases l with
  | nil => simp [refsOfList] at h
  | cons v tl =>
    rcases mem_sunion.mp (by simpa [refsOfList] using h) with h' | h'
    · exact ne_empty_of_mem_refs_value h'
    · exact ne_empty_of_mem_refs_list h'

theorem ne_empty_of_mem_refs_obj {n : String} {o : JObj} (h : n ∈ refsOfObj o) :
    n ≠ "" := by
  cases o with
  | nil => simp [refsOfObj] at h
  | cons k v tl =>
    rcases mem_sunion.mp (by simpa [refsOfObj] using h) with h' | h'
    · exact ne_empty_of_mem_refs_value h'
    · exact ne_empty_of_mem_refs_obj h'

end

/-! ## Lemmas about association-list maps -/

theorem alookup_aset_eq {β : Type} (m : List (String × β)) (k : String) (x : β) :
    alookup (aset m k x) k = some x := by
  induction m with
  | nil => simp [aset, alookup]
  | cons p tl ih =>
    obtain ⟨k', v'⟩ := p
    by_cases h : k' = k
    · simp [aset, h, alookup]
    · simp [aset, h, alookup, ih]

theorem alookup_aset_ne {β : Type} (m : List (String × β)) {k n : String}
    (h : k ≠ n) (x : β) : alookup (aset m k x) n = alookup m n := by
  induction m with
  | nil => simp [aset, alookup, h]
  | cons p tl ih =>
    obtain ⟨k', v'⟩ := p
    by_cases h' : k' = k
    · subst h'
      simp [aset, alookup, h]
    · simp [aset, h', alookup, ih]

theorem alookup_aupdate_eq {β : Type} (f : β → β) (m : List (String × β)) (k : String) :
    alookup (aupdate f m k) k = (alookup m k).map f := by
  induction m with
  | nil => simp [aupdate, alookup]
  | cons p tl ih =>
    obtain ⟨k', v'⟩ := p
    by_cases h : k' = k
    · simp [aupdate, h, alookup]
    · simp [aupdate, h, alookup, ih]

theorem alookup_aupdate_ne {β : Type} (f : β → β) (m : List (String × β)) {k n : String}
    (h : k ≠ n) : alookup (aupdate f m k) n = alookup m n := by
  induction m with
  | nil => simp [aupdate, alookup]
  | cons p tl ih =>
    obtain ⟨k', v'⟩ := p
    by_cases h' : k' = k
    · subst h'
      simp [aupdate, alookup, h]
    · simp [aupdate, h', alookup, ih]

theorem isSome_aupdate {β : Type} (f : β → β) (m : List (String × β)) (k n : String) :
    (alookup (aupdate f m k) n).isSome = (alookup m n).isSome := by
  by_cases h : k = n
  · subst h
    rw [alookup_aupdate_eq]
    cases alookup m k <;> simp
  · rw [alookup_aupdate_ne _ _ h]

/-! ## Lemmas about the usage-count fold -/

theorem alookup_processRef_ne (cat : Cat) (comp : JObj)
    (m : List (String × UsageRecord)) {x n : String} (h : x ≠ n) :
    alookup (processRef cat comp m x) n = alookup m n := by
  unfold processRef
  split
  · split
    · exact alookup_aupdate_ne _ _ h
    · rfl
  · rfl

theorem alookup_processRef_self (cat : Cat) (comp : JObj)
    (m : List (String × UsageRecord)) (n : String) :
    alookup (processRef cat comp m n) n =
      (alookup m n).map (fun r =>
        if 0 < countOfObj n comp then
          bumpRecord r (catKeyOf cat comp) (countOfObj n comp) (displayNameFor cat comp)
        else r) := by
  unfold processRef
  cases hs : alookup m n with
  | none => simp [hs]
  | some r =>
    simp only [hs, Option.isSome_some, if_true]
    split
    case isTrue hpos =>
      rw [alookup_aupdate_eq, hs]
    case isFalse hpos =>
      rw [hs]
      simp [hpos]

theorem isSome_processRef (cat : Cat) (comp : JObj)
    (m : List (String × UsageRecord)) (x n : String) :
    (alookup (processRef cat comp m x) n).isSome = (alookup m n).isSome := by
  unfold processRef
  split
  · split
    · exact isSome_aupdate _ _ _ _
    · rfl
  · rfl

theorem alookup_foldRefs_not_mem (cat : Cat) (comp : JObj) :
    ∀ (l : List String) (m : List (String × UsageRecord)) {n : String}, n ∉ l →
      alookup (l.foldl (processRef cat comp) m) n = alookup m n := by
  intro l
  induction l with
  | nil => intro m n _; rfl
  | cons x tl ih =>
    intro m n hn
    have hx : x ≠ n := by
      rintro rfl
      exact hn (List.mem_cons_self _ _)
    rw [List.foldl_cons, ih _ (fun h => hn (List.mem_cons_of_mem _ h)),
      alookup_processRef_ne _ _ _ hx]

theorem alookup_foldRefs_mem (cat : Cat) (comp : JObj) :
    ∀ (l : List String) (m : List (String × UsageRecord)) {n : String},
      l.Nodup → n ∈ l →
      alookup (l.foldl (processRef cat comp) m) n =
        (alookup m n).map (fun r =>
          if 0 < countOfObj n comp then
            bumpRecord r (catKeyOf cat comp) (countOfObj n comp) (displayNameFor cat comp)
          else r) := by
  intro l
  induction l with
  | nil => intro m n _ h; simp at h
  | cons x tl ih =>
    intro m n hnd hn
    rcases List.mem_cons.mp hn with rfl | hn'
    · have hnot : n ∉ tl := (List.nodup_cons.mp hnd).1
      rw [List.foldl_cons, alookup_foldRefs_not_mem _ _ _ _ hnot,
        alookup_processRef_self]
    · have hxn : x ≠ n := by
        rintro rfl
        exact (List.nodup_cons.mp hnd).1 hn'
      rw [List.foldl_cons, ih _ (List.nodup_cons.mp hnd).2 hn',
        alookup_processRef_ne _ _ _ hxn]

theorem nodup_selfAdjust (cat : Cat) (comp : JObj) {l : List String} (h : l.Nodup) :
    (selfAdjust cat comp l).Nodup := by
  unfold selfAdjust
  split
  · split
    · split
      · exact h.filter _
      · exact h
    · exact h
  · exact h

theorem nodup_usageRefs (cat : Cat) (comp : JObj) : (usageRefs cat comp).Nodup := by
  unfold usageRefs
  apply nodup_selfAdjust
  split
  · exact nodup_sunion (nodup_refsOfObj comp) _
  · exact nodup_refsOfObj comp

theorem alookup_processComp (m : List (String × UsageRecord)) (cc : Cat × JObj)
    (n : String) :
    alookup (processComp m cc) n =
      if n ∈ usageRefs cc.1 cc.2 then
        (alookup m n).map (fun r =>
          if 0 < countOfObj n cc.2 then
            bumpRecord r (catKeyOf cc.1 cc.2) (countOfObj n cc.2) (displayNameFor cc.1 cc.2)
          else r)
      else alookup m n := by
  unfold processComp
  by_cases h : n ∈ usageRefs cc.1 cc.2
  · rw [if_pos h]
    exact alookup_foldRefs_mem _ _ _ _ (nodup_usageRefs cc.1 cc.2) h
  · rw [if_neg h]
    exact alookup_foldRefs_not_mem _ _ _ _ h

theorem totalReferences_bumpRecord (r : UsageRecord) (cat : Cat) (occ : Nat) (nm : String) :
    (bumpRecord r cat occ nm).totalReferences = r.totalReferences + occ := by
  cases cat <;> rfl

theorem totalRefsOf_processComp (m : List (String × UsageRecord)) (cc : Cat × JObj)
    {n : String} (hn : (alookup m n).isSome) :
    totalRefsOf (processComp m cc) n = totalRefsOf m n + contribOf n cc := by
  obtain ⟨r, hr⟩ := Option.isSome_iff_exists.mp hn
  unfold totalRefsOf contribOf
  rw [alookup_processComp, hr]
  by_cases hmem : n ∈ usageRefs cc.1 cc.2
  · rw [if_pos hmem]
    by_cases hpos : 0 < countOfObj n cc.2
    · rw [if_pos ⟨hmem, hpos⟩]
      simp [if_pos hpos, totalReferences_bumpRecord]
    · rw [if_neg (fun hc => hpos hc.2)]
      simp [if_neg hpos]
  · rw [if_neg hmem, if_neg (fun hc : _ ∧ _ => hmem hc.1)]
    simp

theorem isSome_processComp (m : List (String × UsageRecord)) (cc : Cat × JObj)
    (n : String) :
    (alookup (processComp m cc) n).isSome = (alookup m n).isSome := by
  rw [alookup_processComp]
  split
  · cases alookup m n <;> simp
  · rfl

theorem totalRefsOf_fold (ccs : List (Cat × JObj)) :
    ∀ (m : List (String × UsageRecord)) {n : String}, (alookup m n).isSome →
      totalRefsOf (ccs.foldl processComp m) n =
        totalRefsOf m n + (ccs.map (contribOf n)).sum := by
  induction ccs with
  | nil => intro m n _; simp
  | cons cc tl ih =>
    intro m n hn
    rw [List.foldl_cons, ih _ (by rw [isSome_processComp]; exact hn),
      totalRefsOf_processComp _ _ hn, List.map_cons, List.sum_cons]
    omega

theorem alookup_initfold :
    ∀ (vs : List JObj) (m : List (String × UsageRecord)) (n : String),
      alookup (vs.foldl (fun m v => aset m (varNameOf v) initRecord) m) n =
        if n ∈ vs.map varNameOf then some initRecord else alookup m n := by
  intro vs
  induction vs with
  | nil => intro m n; simp
  | cons v tl ih =>
    intro m n
    rw [List.foldl_cons, ih]
    by_cases htl : n ∈ tl.map varNameOf
    · rw [if_pos htl, if_pos (by simp [htl])]
    · rw [if_neg htl]
      by_cases hv : varNameOf v = n
      · rw [if_pos (by simp [hv]), hv, alookup_aset_eq]
      · rw [if_neg (by simp [htl, hv, Ne.symm]), alookup_aset_ne _ hv]

theorem jget_refs_sub {o : JObj} {k : String} {v : JValue} (h : jget o k = some v)
    {x : String} (hx : x ∈ refsOfValue v) : x ∈ refsOfObj o := by
  match o with
  | .nil => simp [jget] at h
  | .cons k' v' tl =>
    rw [jget] at h
    rw [refsOfObj]
    rcases em (k' = k) with hk | hk
    · rw [if_pos hk] at h
      obtain rfl : v' = v := by injection h
      exact mem_sunion.mpr (Or.inl hx)
    · rw [if_neg hk] at h
      exact mem_sunion.mpr (Or.inr (jget_refs_sub h hx))

theorem templateDataRefs_sub {comp : JObj} {x : String}
    (h : x ∈ templateDataRefs comp) : x ∈ refsOfObj comp := by
  unfold templateDataRefs jgetD at h
  cases hj : jget comp "templateData" with
  | none =>
    rw [hj] at h
    simp only [Option.getD_none] at h
    have : refsInString "" = [] := rfl
    rw [this] at h
    simp at h
  | some v =>
    rw [hj] at h
    simp only [Option.getD_some] at h
    cases v with
    | str s => exact jget_refs_sub hj (by simpa [refsOfValue] using h)
    | num m => simp at h
    | bool b => simp at h
    | null => simp at h
    | arr items => simp at h
    | obj fields => simp at h

theorem mem_selfAdjust_sub {cat : Cat} {comp : JObj} {l : List String} {x : String}
    (h : x ∈ selfAdjust cat comp l) : x ∈ l := by
  unfold selfAdjust at h
  split at h
  · split at h
    · split at h
      · exact List.mem_of_mem_filter h
      · exact h
    · exact h
  · exact h

theorem mem_selfAdjust_congr (cat : Cat) (comp : JObj) {l₁ l₂ : List String}
    (hmem : ∀ y, y ∈ l₁ ↔ y ∈ l₂) (x : String) :
    x ∈ selfAdjust cat comp l₁ ↔ x ∈ selfAdjust cat comp l₂ := by
  unfold selfAdjust
  split
  · split
    case h_1 nm heq =>
      by_cases hin : nm ∈ l₁
      · rw [if_pos hin, if_pos ((hmem nm).mp hin)]
        simp only [List.mem_filter]
        rw [hmem x]
      · rw [if_neg hin, if_neg (fun hc => hin ((hmem nm).mpr hc))]
        exact hmem x
    case h_2 => exact hmem x
  · exact hmem x

theorem mem_usageRefs_iff (cat : Cat) (comp : JObj) (x : String) :
    x ∈ usageRefs cat comp ↔ x ∈ unusedRefs cat comp := by
  unfold usageRefs unusedRefs
  apply mem_selfAdjust_congr
  intro y
  split
  · rw [mem_sunion]
    constructor
    · rintro (h | h)
      · exact h
      · exact templateDataRefs_sub h
    · exact fun h => Or.inl h
  · exact Iff.rfl

theorem mem_unusedRefs_sub {cat : Cat} {comp : JObj} {x : String}
    (h : x ∈ unusedRefs cat comp) : x ∈ refsOfObj comp :=
  mem_selfAdjust_sub h

theorem contribOf_eq_zero_iff (n : String) (cc : Cat × JObj) :
    contribOf n cc = 0 ↔ n ∉ usageRefs cc.1 cc.2 := by
  unfold contribOf
  by_cases hmem : n ∈ usageRefs cc.1 cc.2
  · have hpos : 0 < countOfObj n cc.2 :=
      memRefs_count_obj (mem_unusedRefs_sub ((mem_usageRefs_iff cc.1 cc.2 n).mp hmem))
    rw [if_pos ⟨hmem, hpos⟩]
    constructor
    · intro h
      omega
    · intro h
      exact absurd hmem h
  · rw [if_neg (fun hc => hmem hc.1)]
    simp [hmem]

theorem mem_referencedVariables {c : Container} {n : String} :
    n ∈ referencedVariables c ↔
      ∃ cc ∈ checkedComponents c, n ∈ unusedRefs cc.1 cc.2 := by
  unfold referencedVariables
  generalize checkedComponents c = l
  suffices h : ∀ (l : List (Cat × JObj)) (acc : List String),
      n ∈ l.foldl (fun acc cc => sunion acc (unusedRefs cc.1 cc.2)) acc ↔
        n ∈ acc ∨ ∃ cc ∈ l, n ∈ unusedRefs cc.1 cc.2 by
    simpa using h l []
  intro l
  induction l with
  | nil => simp
  | cons cc tl ih =>
    intro acc
    rw [List.foldl_cons, ih, mem_sunion]
    constructor
    · rintro ((h | h) | ⟨cc', hcc', h⟩)
      · exact Or.inl h
      · exact Or.inr ⟨cc, List.mem_cons_self _ _, h⟩
      · exact Or.inr ⟨cc', List.mem_cons_of_mem _ hcc', h⟩
    · rintro (h | ⟨cc', hcc', h⟩)
      · exact Or.inl (Or.inl h)
      · rcases List.mem_cons.mp hcc' with rfl | h'
        · exact Or.inl (Or.inr h)
        · exact Or.inr ⟨cc', h', h⟩

theorem mem_findUnused {c : Container} {v : JObj} (hv : v ∈ c.vars) :
    varSummary v ∈ findUnusedVariables c ↔ varNameOf v ∉ referencedVariables c := by
  unfold findUnusedVariables
  rw [List.mem_filterMap]
  constructor
  · rintro ⟨a, ha, hif⟩
    by_cases hmem : varNameOf a ∈ referencedVariables c
    · rw [if_pos hmem] at hif
      exact absurd hif (by simp)
    · rw [if_neg hmem] at hif
      have hnames : varNameOf a = varNameOf v := by
        have := congrArg VarSummary.name (Option.some.inj hif)
        simpa [varSummary, varNameOf] using this
      rw [← hnames]
      exact hmem
  · intro hmem
    exact ⟨v, hv, by rw [if_neg hmem]⟩

/-! ## Self-reference exclusion and paused-tag policy lemmas -/

theorem self_not_mem_usageRefs (v : JObj) : varNameOf v ∉ usageRefs Cat.variables v := by
  unfold usageRefs selfAdjust
  rw [if_neg (by decide : ¬(Cat.variables = Cat.customTemplates)),
    if_pos rfl]
  cases hj : jget v "name" with
  | none =>
    have hname : varNameOf v = "" := by unfold varNameOf getStrD; rw [hj]
    rw [hname]
    exact fun h => ne_empty_of_mem_refs_obj h rfl
  | some val =>
    cases val with
    | str nm =>
      have hname : varNameOf v = nm := by unfold varNameOf getStrD; rw [hj]
      rw [hname]
      dsimp only
      by_cases hin : nm ∈ refsOfObj v
      · rw [if_pos hin]
        intro h
        exact absurd (List.of_mem_filter h) (by simp)
      · rw [if_neg hin]
        exact hin
    | num m =>
      have hname : varNameOf v = "" := by unfold varNameOf getStrD; rw [hj]
      rw [hname]
      exact fun h => ne_empty_of_mem_refs_obj h rfl
    | bool b =>
      have hname : varNameOf v = "" := by unfold varNameOf getStrD; rw [hj]
      rw [hname]
      exact fun h => ne_empty_of_mem_refs_obj h rfl
    | null =>
      have hname : varNameOf v = "" := by unfold varNameOf getStrD; rw [hj]
      rw [hname]
      exact fun h => ne_empty_of_mem_refs_obj h rfl
    | arr items =>
      have hname : varNameOf v = "" := by unfold varNameOf getStrD; rw [hj]
      rw [hname]
      exact fun h => ne_empty_of_mem_refs_obj h rfl
    | obj fields =>
      have hname : varNameOf v = "" := by unfold varNameOf getStrD; rw [hj]
      rw [hname]
      exact fun h => ne_empty_of_mem_refs_obj h rfl

theorem alookup_processComp_selfvar (m : List (String × UsageRecord)) (v : JObj) :
    alookup (processComp m (Cat.variables, v)) (varNameOf v) =
      alookup m (varNameOf v) := by
  rw [alookup_processComp, if_neg (self_not_mem_usageRefs v)]

theorem usageRefs_tags (comp : JObj) : usageRefs Cat.tags comp = refsOfObj comp := rfl

theorem catKeyOf_tags (comp : JObj) : catKeyOf Cat.tags comp = Cat.tags := rfl

theorem checked_singleton (v comp : JObj) :
    checkedComponents ⟨[v], [comp], [], [], [], [], true⟩ =
      [(Cat.tags, comp), (Cat.variables, v)] := by
  simp [checkedComponents]

theorem usage_singleton (comp v : JObj) (h : varNameOf v ∈ refsOfObj comp) :
    alookup (getVariableUsageCounts ⟨[v], [comp], [], [], [], [], true⟩)
        (varNameOf v) =
      some (bumpRecord initRecord Cat.tags (countOfObj (varNameOf v) comp)
        (displayNameFor Cat.tags comp)) := by
  unfold getVariableUsageCounts
  rw [checked_singleton]
  have hinit : alookup (initUsage ⟨[v], [comp], [], [], [], [], true⟩) (varNameOf v) =
      some initRecord := by
    unfold initUsage
    rw [alookup_initfold]
    rw [if_pos (by simp)]
  have hpos : 0 < countOfObj (varNameOf v) comp := memRefs_count_obj h
  rw [List.foldl_cons, List.foldl_cons, List.foldl_nil,
    alookup_processComp_selfvar, alookup_processComp]
  rw [if_pos (by rw [usageRefs_tags]; exact h), hinit]
  simp only [Option.map_some', if_pos hpos, catKeyOf_tags]

theorem bumpRecord_tags_fields (occ : Nat) (nm : String) :
    (bumpRecord initRecord Cat.tags occ nm).locTags = 1 ∧
    (bumpRecord initRecord Cat.tags occ nm).totalReferences = occ ∧
    (bumpRecord initRecord Cat.tags occ nm).compTags = [nm] := by
  refine ⟨rfl, ?_, rfl⟩
  show 0 + occ = occ
  omega

theorem displayNameFor_paused {comp : JObj} (h : isPausedTag comp = true) :
    displayNameFor Cat.tags comp =
      getStrD comp "name" "Unnamed tags" ++ " (PAUSED)" := by
  unfold displayNameFor
  rw [if_pos (by simp [h])]
  rfl

theorem tags_filterMap_filter (tags : List JObj) (b : Bool) :
    (tags.filterMap fun t =>
        if isPausedTag t && !false then none else some (Cat.tags, t)) =
      ((tags.filter fun t => !isPausedTag t).filterMap fun t =>
        if isPausedTag t && !b then none else some (Cat.tags, t)) := by
  induction tags with
  | nil => rfl
  | cons t tl ih =>
    by_cases hp : isPausedTag t = true
    · simp [hp]
      simpa using ih
    · have hp' : isPausedTag t = false := by simpa using hp
      simp [hp']
      simpa using ih

theorem checked_include_false_filter (c : Container) (b : Bool) :
    checkedComponents { c with includePausedTags := false } =
      checkedComponents { removePausedTags c with includePausedTags := b } := by
  unfold checkedComponents removePausedTags
  rw [tags_filterMap_filter c.tags b]

theorem usage_include_false_filter (c : Container) (b : Bool) :
    getVariableUsageCounts { c with includePausedTags := false } =
      getVariableUsageCounts { removePausedTags c with includePausedTags := b } := by
  unfold getVariableUsageCounts
  rw [checked_include_false_filter c b]
  rfl

/-! ## Evaluation-impact lemmas -/

theorem processTagImpact_paused (c : Container) (acc : TagImpact) {tag : JObj}
    (h : isPausedTag tag = true) : processTagImpact c acc tag = acc := by
  unfold processTagImpact
  rw [if_pos h]

theorem tagImpact_fold_filter (c : Container) :
    ∀ (l : List JObj) (acc : TagImpact),
      l.foldl (processTagImpact c) acc =
        (l.filter fun t => !isPausedTag t).foldl (processTagImpact c) acc := by
  intro l
  induction l with
  | nil => intro acc; rfl
  | cons t tl ih =>
    intro acc
    by_cases hp : isPausedTag t = true
    · rw [List.foldl_cons, processTagImpact_paused c acc hp, List.filter_cons,
        if_neg (by simp [hp]), ih]
    · have hp' : isPausedTag t = false := by simpa using hp
      rw [List.foldl_cons, List.filter_cons, if_pos (by simp [hp']), List.foldl_cons, ih]

theorem analyzeTagImpact_filter (c : Container) :
    analyzeTagEvaluationImpact c = analyzeTagEvaluationImpact (removePausedTags c) := by
  unfold analyzeTagEvaluationImpact removePausedTags
  exact tagImpact_fold_filter c c.tags emptyTagImpact

theorem activeTriggerIds_filter (c : Container) :
    activeTriggerIds c = activeTriggerIds (removePausedTags c) := by
  unfold activeTriggerIds removePausedTags
  suffices h : ∀ (l : List JObj) (acc : List JValue),
      (l.foldl (fun acc tag => if isPausedTag tag then acc else
          match jgetD tag "firingTriggerId" (.arr .nil) with
          | .arr items => acc ++ items.toList
          | _ => acc) acc) =
        ((l.filter fun t => !isPausedTag t).foldl (fun acc tag => if isPausedTag tag then acc else
          match jgetD tag "firingTriggerId" (.arr .nil) with
          | .arr items => acc ++ items.toList
          | _ => acc) acc) by
    exact h c.tags []
  intro l
  induction l with
  | nil => intro acc; rfl
  | cons t tl ih =>
    intro acc
    by_cases hp : isPausedTag t = true
    · simp only [List.foldl_cons]
      rw [if_pos hp, List.filter_cons, if_neg (by simp [hp]), ih]
    · have hp' : isPausedTag t = false := by simpa using hp
      simp only [List.foldl_cons, List.filter_cons]
      rw [if_pos (show (!isPausedTag t) = true by simp [hp'])]
      simp only [List.foldl_cons]
      rw [ih]

theorem analyzeTriggerImpact_filter (c : Container) :
    analyzeTriggerEvaluationImpact c =
      analyzeTriggerEvaluationImpact (removePausedTags c) := by
  unfold analyzeTriggerEvaluationImpact
  rw [activeTriggerIds_filter c]
  rfl

/-! ## Duplicate-grouping lemmas -/

theorem alookup_mem {α β : Type} [DecidableEq α] {l : List (α × β)} {k : α} {x : β}
    (h : alookup l k = some x) : (k, x) ∈ l := by
  induction l with
  | nil => simp [alookup] at h
  | cons p tl ih =>
    obtain ⟨k', v'⟩ := p
    rw [alookup] at h
    by_cases hk : k' = k
    · rw [if_pos hk] at h
      subst hk
      obtain rfl : v' = x := by injection h
      exact List.mem_cons_self _ _
    · rw [if_neg hk] at h
      exact List.mem_cons_of_mem _ (ih h)

theorem alookup_appendGroup_eq (gs : List ((Bucket × String) × List JObj))
    (key : Bucket × String) (e : JObj) :
    alookup (appendGroup gs key e) key = some ((alookup gs key).getD [] ++ [e]) := by
  induction gs with
  | nil => simp [appendGroup, alookup]
  | cons p tl ih =>
    obtain ⟨k', g'⟩ := p
    by_cases hk : k' = key
    · subst hk
      simp [appendGroup, alookup]
    · simp [appendGroup, hk, alookup, ih]

theorem alookup_appendGroup_ne (gs : List ((Bucket × String) × List JObj))
    {key k : Bucket × String} (h : key ≠ k) (e : JObj) :
    alookup (appendGroup gs key e) k = alookup gs k := by
  induction gs with
  | nil => simp [appendGroup, alookup, h]
  | cons p tl ih =>
    obtain ⟨k', g'⟩ := p
    by_cases hk : k' = key
    · subst hk
      simp [appendGroup, alookup, h]
    · simp [appendGroup, hk, alookup, ih]

theorem buildGroups_lookup (key : Bucket × String) :
    ∀ (vars : List JObj) (gs : List ((Bucket × String) × List JObj)),
      (alookup (vars.foldl
          (fun gs v =>
            match classifyVar v with
            | some (b, k, e) => appendGroup gs (b, k) e
            | none => gs) gs) key).getD [] =
        (alookup gs key).getD [] ++ collectGroup vars key := by
  intro vars
  induction vars with
  | nil =>
    intro gs
    simp [collectGroup]
  | cons v tl ih =>
    intro gs
    simp only [List.foldl_cons]
    cases hc : classifyVar v with
    | none =>
      rw [ih]
      unfold collectGroup
      rw [List.filterMap_cons]
      simp [hc, collectGroup]
    | some bke =>
      obtain ⟨b, k, e⟩ := bke
      rw [ih]
      dsimp only
      by_cases hkey : (b, k) = key
      · rw [hkey, alookup_appendGroup_eq]
        unfold collectGroup
        rw [List.filterMap_cons]
        simp [hc, hkey, collectGroup]
      · rw [alookup_appendGroup_ne _ hkey]
        unfold collectGroup
        rw [List.filterMap_cons]
        simp [hc, hkey, collectGroup]

theorem buildGroups_isSome (key : Bucket × String) :
    ∀ (vars : List JObj) (gs : List ((Bucket × String) × List JObj)),
      (alookup (vars.foldl
          (fun gs v =>
            match classifyVar v with
            | some (b, k, e) => appendGroup gs (b, k) e
            | none => gs) gs) key).isSome =
        ((alookup gs key).isSome || !(collectGroup vars key).isEmpty) := by
  intro vars
  induction vars with
  | nil =>
    intro gs
    simp [collectGroup]
  | cons v tl ih =>
    intro gs
    simp only [List.foldl_cons]
    cases hc : classifyVar v with
    | none =>
      rw [ih]
      unfold collectGroup
      rw [List.filterMap_cons]
      simp [hc, collectGroup]
    | some bke =>
      obtain ⟨b, k, e⟩ := bke
      rw [ih]
      dsimp only
      by_cases hkey : (b, k) = key
      · rw [hkey, alookup_appendGroup_eq]
        unfold collectGroup
        rw [List.filterMap_cons]
        simp [hc, hkey, collectGroup]
      · rw [alookup_appendGroup_ne _ hkey]
        unfold collectGroup
        rw [List.filterMap_cons]
        simp [hc, hkey, collectGroup]

theorem collectGroup_mem_buildGroups {vars : List JObj} {key : Bucket × String}
    (h : collectGroup vars key ≠ []) :
    (key, collectGroup vars key) ∈ buildGroups vars := by
  have hsome : (alookup (buildGroups vars) key).isSome = true := by
    unfold buildGroups
    rw [buildGroups_isSome]
    simp [alookup, List.isEmpty_iff, h]
  obtain ⟨g, hg⟩ := Option.isSome_iff_exists.mp hsome
  have hval : g = collectGroup vars key := by
    have := buildGroups_lookup key vars []
    unfold buildGroups at hg
    rw [hg] at this
    simpa [alookup] using this
  rw [← hval]
  exact alookup_mem hg

/-! ## Resolver and loader lemmas -/

theorem resolve_visited (vars : List JObj) (name : String) (visited : List String)
    (h : name ∈ visited) :
    getAllVariableReferencesRecursive vars name visited = [] := by
  unfold getAllVariableReferencesRecursive
  rw [resolveLoop]
  rw [if_pos h]

theorem resolve_unknown (vars : List JObj) (name : String)
    (h : ∀ v ∈ vars, varNameOf v ≠ name) :
    getAllVariableReferencesRecursive vars name [] = [] := by
  unfold getAllVariableReferencesRecursive
  rw [resolveLoop]
  rw [if_neg (by simp)]
  rw [List.find?_eq_none.mpr (fun v hv => by simp [h v hv])]

theorem loadContainer_missing_cv {doc : JObj} (b : Bool)
    (h : jget doc "containerVersion" = none) :
    loadContainer doc b = .ok (emptyContainer b) := by
  unfold loadContainer
  rw [h]
  rfl

theorem loadContainer_missing_variable_key (cv : JObj) (b : Bool)
    (h : jget cv "variable" = none) :
    ∀ cont, loadContainer (JObj.cons "containerVersion" (.obj cv) JObj.nil) b = .ok cont →
      cont.vars = [] := by
  intro cont hok
  unfold loadContainer at hok
  rw [show jget (JObj.cons "containerVersion" (.obj cv) JObj.nil) "containerVersion" =
    some (.obj cv) from rfl] at hok
  dsimp only at hok
  rw [show jgetD cv "variable" (.arr .nil) = .arr .nil by unfold jgetD; rw [h]; rfl] at hok
  rw [show iterComponents (JValue.arr .nil) = .ok [] from rfl] at hok
  dsimp only at hok
  cases h1 : iterComponents (jgetD cv "tag" (.arr .nil)) with
  | error e => simp [h1] at hok
  | ok tags =>
    rw [h1] at hok
    cases h2 : iterComponents (jgetD cv "trigger" (.arr .nil)) with
    | error e => simp [h2] at hok
    | ok triggers =>
      rw [h2] at hok
      cases h3 : iterComponents (jgetD cv "transformation" (.arr .nil)) with
      | error e => simp [h3] at hok
      | ok transformations =>
        rw [h3] at hok
        cases h4 : iterComponents (jgetD cv "client" (.arr .nil)) with
        | error e => simp [h4] at hok
        | ok clients =>
          rw [h4] at hok
          cases h5 : iterComponents (jgetD cv "customTemplate" (.arr .nil)) with
          | error e => simp [h5] at hok
          | ok customTemplates =>
            rw [h5] at hok
            obtain rfl : cont = ⟨[], tags, triggers, transformations, clients,
                customTemplates, b⟩ := by
              cases hok
              rfl
            rfl

/-! ## Claim theorems -/

/-- Claim C1, counterexample: the claim says the scanner returns exactly
the set of names X with a double-brace-wrapped occurrence in the string.
For the string `\x7b\x7b\x7bA\x7d\x7d` the scanner returns only
`\x7bA`, although `A` also occurs as a well-formed double-brace-wrapped
span (at offset 1): the left-to-right non-overlapping regex scan misses
names whose spans overlap an earlier match. -/
theorem C1_counterexample :
    refsInString "\x7b\x7b\x7bA\x7d\x7d" = ["\x7bA"] ∧
    specBraceSpan "\x7b\x7b\x7bA\x7d\x7d" "A" ∧
    "A" ∉ refsInString "\x7b\x7b\x7bA\x7d\x7d" := by
  refine ⟨by decide, ⟨by decide, by decide, by decide⟩, by decide⟩

/-- Claim C1 (amended): every name the Reference Scanner returns for a
string is a distinct nonempty name, free of closing braces, occurring in
the string as a double-brace-wrapped span (names from overlapping spans
may be absent, per the counterexample); for a mapping the scan is the
union over the values (keys are never scanned), for a sequence the union
over the elements, and for any other value the empty set; and
`\x7b\x7bA\x7d\x7d \x7b\x7bB\x7d\x7d` yields exactly \x7bA, B\x7d. -/
theorem C1_scanner (s X : String) :
    (X ∈ refsInString s → specBraceSpan s X) ∧
    (refsInString s).Nodup ∧
    (∀ fields : JObj, refsOfValue (.obj fields) = refsOfObj fields) ∧
    (∀ (k : String) (v : JValue) (tl : JObj),
      refsOfObj (.cons k v tl) = sunion (refsOfValue v) (refsOfObj tl)) ∧
    (∀ items : JList, refsOfValue (.arr items) = refsOfList items) ∧
    (∀ (v : JValue) (tl : JList),
      refsOfList (.cons v tl) = sunion (refsOfValue v) (refsOfList tl)) ∧
    (∀ n : Int, refsOfValue (.num n) = []) ∧
    (∀ b : Bool, refsOfValue (.bool b) = []) ∧
    refsOfValue .null = [] ∧
    refsInString "\x7b\x7bA\x7d\x7d \x7b\x7bB\x7d\x7d" = ["A", "B"] := by
  refine ⟨?_, nodup_refsInString s, fun _ => rfl, fun _ _ _ => rfl, fun _ => rfl,
    fun _ _ => rfl, fun _ => rfl, fun _ => rfl, rfl, by decide⟩
  intro h
  obtain ⟨h1, h2, h3⟩ := refsInString_sound h
  refine ⟨h1, ?_, infixCheck_of_infixOf h3⟩
  rw [List.all_eq_true]
  intro c hc
  simpa using h2 c hc

/-- Claim C1, witness: the soundness half of `C1_scanner` applied to the
name `A` found in `\x7b\x7bA\x7d\x7d \x7b\x7bB\x7d\x7d`. -/
theorem C1_witness :
    "A" ∈ refsInString "\x7b\x7bA\x7d\x7d \x7b\x7bB\x7d\x7d" ∧
    specBraceSpan "\x7b\x7bA\x7d\x7d \x7b\x7bB\x7d\x7d" "A" :=
  ⟨by decide, (C1_scanner "\x7b\x7bA\x7d\x7d \x7b\x7bB\x7d\x7d" "A").1 (by decide)⟩

/-- Claim C2: the Transitive Reference Resolver terminates on every
finite container (its Lean embedding is total: the fuel
`vars.length + 1` is never exhausted, see `resolveLoop`); a branch stops
exactly when the name is already in the path-scoped visited set (first
conjunct); on the mutual cycle A↔B the fresh call on `A` returns the
finite mapping \x7bB ↦ 1, A ↦ 1\x7d; and because the visited set is
copied per branch, the diamond A→\x7bB,C\x7d→D still counts `D` once per
path (count 2). -/
theorem C2_cycle_termination :
    (∀ (vars : List JObj) (name : String) (visited : List String), name ∈ visited →
      getAllVariableReferencesRecursive vars name visited = []) ∧
    alookup (getAllVariableReferencesRecursive [c2VA, c2VB] "A" []) "A" = some 1 ∧
    alookup (getAllVariableReferencesRecursive [c2VA, c2VB] "A" []) "B" = some 1 ∧
    (getAllVariableReferencesRecursive [c2VA, c2VB] "A" []).length = 2 ∧
    alookup (getAllVariableReferencesRecursive [c2DA, c2DB, c2DC, c2DD] "A" []) "D" =
      some 2 :=
  ⟨resolve_visited, by decide, by decide, by decide, by decide⟩

/-- Claim C2, witness: the visited-set stop of `C2_cycle_termination`
applied at a concrete input. -/
theorem C2_witness :
    "A" ∈ ["A"] ∧
    getAllVariableReferencesRecursive [c2VA, c2VB] "A" ["A"] = [] :=
  ⟨by decide, C2_cycle_termination.1 [c2VA, c2VB] "A" ["A"] (by decide)⟩

/-- Claim C3: a Variable appears in the `find_unused_variables` output
precisely when its `total_references` in the `get_variable_usage_counts`
output is zero. -/
theorem C3_unused_iff_zero_total (c : Container) (v : JObj) (hv : v ∈ c.vars) :
    varSummary v ∈ findUnusedVariables c ↔
      totalRefsOf (getVariableUsageCounts c) (varNameOf v) = 0 := by
  have hinit : alookup (initUsage c) (varNameOf v) = some initRecord := by
    unfold initUsage
    rw [alookup_initfold, if_pos (List.mem_map_of_mem varNameOf hv)]
  have h0 : totalRefsOf (initUsage c) (varNameOf v) = 0 := by
    unfold totalRefsOf
    rw [hinit]
    rfl
  rw [mem_findUnused hv]
  unfold getVariableUsageCounts
  rw [totalRefsOf_fold _ _ (by rw [hinit]; rfl), h0, Nat.zero_add,
    List.sum_eq_zero_iff]
  constructor
  · intro hnot x hx
    obtain ⟨cc, hcc, rfl⟩ := List.mem_map.mp hx
    rw [contribOf_eq_zero_iff]
    intro hmem
    exact hnot (mem_referencedVariables.mpr
      ⟨cc, hcc, (mem_usageRefs_iff cc.1 cc.2 _).mp hmem⟩)
  · intro hall hmem
    obtain ⟨cc, hcc, hn⟩ := mem_referencedVariables.mp hmem
    have hz := hall _ (List.mem_map_of_mem (contribOf (varNameOf v)) hcc)
    rw [contribOf_eq_zero_iff] at hz
    exact hz ((mem_usageRefs_iff cc.1 cc.2 _).mpr hn)

/-- Claim C3, witness: for the container holding only the unreferenced
variable `X`, the equivalence puts `X` in the unused list and its total
reference count at zero. -/
theorem C3_witness :
    varSummary c3V ∈ findUnusedVariables c3C ∧
    totalRefsOf (getVariableUsageCounts c3C) (varNameOf c3V) = 0 :=
  ⟨(C3_unused_iff_zero_total c3C c3V (List.mem_singleton.mpr rfl)).mpr (by decide),
   by decide⟩

/-- Claim C4, counterexample: the claim says a component with `k > 1`
occurrences of a reference raises the per-category usage count by `k`.
For the tag `T`, whose parameter holds two occurrences of
`\x7b\x7bV\x7d\x7d`, the code increments the tags usage-location count
by 1 (not 2); the occurrence count goes into `total_references`. -/
theorem C4_counterexample :
    countOfObj "V" c4Tag = 2 ∧
    (alookup (getVariableUsageCounts c4C) "V").map (fun r => r.locTags) = some 1 ∧
    ¬((alookup (getVariableUsageCounts c4C) "V").map (fun r => r.locTags) = some 2) ∧
    (alookup (getVariableUsageCounts c4C) "V").map (fun r => r.totalReferences) =
      some 2 := by
  refine ⟨by decide, by decide, by decide, by decide⟩

/-- Claim C4 (amended): for every reference name found in a component,
the referenced variable's per-category usage count is incremented by
one, the component's display name is recorded, and `total_references` is
incremented by the result of the Occurrence Counter run against that
specific component — so a component containing `k > 1` occurrences of
`\x7b\x7bV\x7d\x7d` raises V's `total_references` by `k` and the
category count by 1 (shown for a container with one variable and one
referencing tag). -/
theorem C4_per_component_counting (comp v : JObj)
    (h : varNameOf v ∈ refsOfObj comp) :
    ∃ r, alookup (getVariableUsageCounts ⟨[v], [comp], [], [], [], [], true⟩)
        (varNameOf v) = some r ∧
      r.locTags = 1 ∧
      r.totalReferences = countOfObj (varNameOf v) comp ∧
      r.compTags = [displayNameFor Cat.tags comp] := by
  obtain ⟨f1, f2, f3⟩ := bumpRecord_tags_fields (countOfObj (varNameOf v) comp)
    (displayNameFor Cat.tags comp)
  exact ⟨_, usage_singleton comp v h, f1, f2, f3⟩

/-- Claim C4, witness: `C4_per_component_counting` at the
double-occurrence tag. -/
theorem C4_witness :
    varNameOf c4V ∈ refsOfObj c4Tag ∧
    ∃ r, alookup (getVariableUsageCounts ⟨[c4V], [c4Tag], [], [], [], [], true⟩)
        (varNameOf c4V) = some r ∧
      r.locTags = 1 ∧
      r.totalReferences = countOfObj (varNameOf c4V) c4Tag ∧
      r.compTags = [displayNameFor Cat.tags c4Tag] :=
  ⟨by decide, C4_per_component_counting c4Tag c4V (by decide)⟩

/-- Claim C5: with `include_paused_tags = False` the usage count map is
the one computed from the container whose paused tags have been removed
(so no usage-location entry attributes anything to a paused tag); with
`include_paused_tags = True` a paused tag's references are counted and
recorded under the tag's name with a `' (PAUSED)'` suffix (shown for a
container with one variable and one paused referencing tag). -/
theorem C5_paused_tag_policy :
    (∀ (c : Container) (b : Bool),
      getVariableUsageCounts { c with includePausedTags := false } =
        getVariableUsageCounts { removePausedTags c with includePausedTags := b }) ∧
    (∀ comp v : JObj, isPausedTag comp = true → varNameOf v ∈ refsOfObj comp →
      ∃ r, alookup (getVariableUsageCounts ⟨[v], [comp], [], [], [], [], true⟩)
          (varNameOf v) = some r ∧
        r.locTags = 1 ∧
        r.compTags = [getStrD comp "name" "Unnamed tags" ++ " (PAUSED)"]) := by
  refine ⟨usage_include_false_filter, ?_⟩
  intro comp v hp h
  refine ⟨_, usage_singleton comp v h,
    (bumpRecord_tags_fields _ _).1, ?_⟩
  rw [(bumpRecord_tags_fields _ _).2.2, displayNameFor_paused hp]

/-- Claim C5, witness: the paused-suffix half of `C5_paused_tag_policy`
at a paused tag referencing `A`. -/
theorem C5_witness :
    isPausedTag c5Tag = true ∧
    varNameOf c5V ∈ refsOfObj c5Tag ∧
    ∃ r, alookup (getVariableUsageCounts ⟨[c5V], [c5Tag], [], [], [], [], true⟩)
        (varNameOf c5V) = some r ∧
      r.locTags = 1 ∧
      r.compTags = [getStrD c5Tag "name" "Unnamed tags" ++ " (PAUSED)"] :=
  ⟨by decide, by decide, C5_paused_tag_policy.2 c5Tag c5V (by decide) (by decide)⟩

/-- Claim C6, counterexample: with `include_paused_tags = True` the
claim says a paused tag's references enter `analyze_tag_evaluation_impact`
and a trigger attached only to paused tags enters
`analyze_trigger_evaluation_impact`.  In the container `c6C`
(`include_paused_tags = True`, one paused tag referencing `A`, one
trigger attached only to that tag) both analyses skip everything: the
code filters paused tags unconditionally, ignoring the flag. -/
theorem C6_counterexample :
    c6C.includePausedTags = true ∧
    isPausedTag c6Tag = true ∧
    (analyzeTagEvaluationImpact c6C).tagsAnalyzed = 0 ∧
    (analyzeTagEvaluationImpact c6C).evaluationsByVariable = [] ∧
    (analyzeTriggerEvaluationImpact c6C).triggersAnalyzed = 0 := by
  refine ⟨rfl, by decide, by decide, by decide, by decide⟩

/-- Claim C6 (amended): paused tags never participate in re-evaluation
impact, regardless of `include_paused_tags`: both analyses equal those
of the container with paused tags removed, and both are invariant under
changing the flag. -/
theorem C6_impact_ignores_flag :
    (∀ c : Container,
      analyzeTagEvaluationImpact c = analyzeTagEvaluationImpact (removePausedTags c)) ∧
    (∀ c : Container,
      analyzeTriggerEvaluationImpact c =
        analyzeTriggerEvaluationImpact (removePausedTags c)) ∧
    (∀ (c : Container) (b : Bool),
      analyzeTagEvaluationImpact { c with includePausedTags := b } =
        analyzeTagEvaluationImpact c ∧
      analyzeTriggerEvaluationImpact { c with includePausedTags := b } =
        analyzeTriggerEvaluationImpact c) :=
  ⟨analyzeTagImpact_filter, analyzeTriggerImpact_filter, fun _ _ => ⟨rfl, rfl⟩⟩

/-- Claim C7: a variable component never counts as a user of itself in
the Component Usage Indexer (its processing leaves its own usage record
untouched); and a variable referenced only by itself (a container
holding just that variable) is reported unused with zero total
references. -/
theorem C7_self_reference_excluded :
    (∀ (m : List (String × UsageRecord)) (v : JObj),
      alookup (processComp m (Cat.variables, v)) (varNameOf v) =
        alookup m (varNameOf v)) ∧
    (∀ v : JObj, varNameOf v ∈ refsOfObj v →
      findUnusedVariables ⟨[v], [], [], [], [], [], true⟩ = [varSummary v] ∧
      totalRefsOf (getVariableUsageCounts ⟨[v], [], [], [], [], [], true⟩)
        (varNameOf v) = 0) := by
  refine ⟨alookup_processComp_selfvar, ?_⟩
  intro v hv
  have hchk : checkedComponents ⟨[v], [], [], [], [], [], true⟩ =
      [(Cat.variables, v)] := by
    simp [checkedComponents]
  have hnot : varNameOf v ∉ referencedVariables ⟨[v], [], [], [], [], [], true⟩ := by
    rw [mem_referencedVariables, hchk]
    rintro ⟨cc, hcc, hmem⟩
    obtain rfl : cc = (Cat.variables, v) := by simpa using hcc
    exact self_not_mem_usageRefs v ((mem_usageRefs_iff Cat.variables v _).mpr hmem)
  constructor
  · simp only [findUnusedVariables]
    simp [hnot]
  · have hinit : alookup (initUsage ⟨[v], [], [], [], [], [], true⟩) (varNameOf v) =
        some initRecord := by
      unfold initUsage
      rw [alookup_initfold]
      rw [if_pos (by simp)]
    unfold getVariableUsageCounts
    rw [hchk, totalRefsOf_fold _ _ (by rw [hinit]; rfl)]
    have hz : contribOf (varNameOf v) (Cat.variables, v) = 0 :=
      (contribOf_eq_zero_iff _ _).mpr (self_not_mem_usageRefs v)
    unfold totalRefsOf
    rw [hinit]
    simp [hz]
    rfl

/-- Claim C7, witness: `C7_self_reference_excluded` at the variable `S`
whose parameter mentions `\x7b\x7bS\x7d\x7d`. -/
theorem C7_witness :
    varNameOf c7V ∈ refsOfObj c7V ∧
    findUnusedVariables ⟨[c7V], [], [], [], [], [], true⟩ = [varSummary c7V] ∧
    totalRefsOf (getVariableUsageCounts ⟨[c7V], [], [], [], [], [], true⟩)
      (varNameOf c7V) = 0 :=
  ⟨by decide, (C7_self_reference_excluded.2 c7V (by decide)).1,
    (C7_self_reference_excluded.2 c7V (by decide)).2⟩

/-- Claim C8: every group reported by `find_duplicate_variables` has at
least two members; the variables sharing a semantic key form one
reported group (containing all of them) as soon as there are at least
two; and a key held by exactly one variable never produces a group. -/
theorem C8_duplicate_groups :
    (∀ (c : Container) (b : Bucket) (g : List JObj),
      g ∈ findDuplicateVariables c b → 2 ≤ g.length) ∧
    (∀ (c : Container) (b : Bucket) (k : String),
      2 ≤ (collectGroup c.vars (b, k)).length →
      collectGroup c.vars (b, k) ∈ findDuplicateVariables c b) ∧
    (∀ (c : Container) (b : Bucket) (k : String),
      (collectGroup c.vars (b, k)).length = 1 →
      collectGroup c.vars (b, k) ∉ findDuplicateVariables c b) := by
  have hmain : ∀ (c : Container) (b : Bucket) (g : List JObj),
      g ∈ findDuplicateVariables c b → 2 ≤ g.length := by
    intro c b g hg
    unfold findDuplicateVariables at hg
    obtain ⟨kg, _, hif⟩ := List.mem_filterMap.mp hg
    by_cases hc : (kg.1.1 = b && decide (1 < kg.2.length)) = true
    · rw [if_pos hc] at hif
      obtain rfl : kg.2 = g := by injection hif
      have hand := (Bool.and_eq_true _ _).mp hc
      have hlen : 1 < kg.2.length := of_decide_eq_true hand.2
      omega
    · rw [if_neg hc] at hif
      exact absurd hif (by simp)
  refine ⟨hmain, ?_, ?_⟩
  · intro c b k hlen
    have hne : collectGroup c.vars (b, k) ≠ [] := by
      intro hcon
      rw [hcon] at hlen
      simp at hlen
    have hmem := collectGroup_mem_buildGroups hne
    unfold findDuplicateVariables
    refine List.mem_filterMap.mpr ⟨((b, k), collectGroup c.vars (b, k)), hmem, ?_⟩
    rw [if_pos (by simp; omega)]
  · intro c b k hlen hmem
    have := hmain c b _ hmem
    omega

/-- Claim C8, witness: the two event-data variables with `keyPath = foo`
form one reported group of size two. -/
theorem C8_witness :
    2 ≤ (collectGroup c8C.vars (Bucket.eventData, "eventdata|foo")).length ∧
    collectGroup c8C.vars (Bucket.eventData, "eventdata|foo") ∈
      findDuplicateVariables c8C Bucket.eventData :=
  ⟨by decide, C8_duplicate_groups.2.1 c8C Bucket.eventData "eventdata|foo" (by decide)⟩

/-- Claim C9, counterexample: the claim says a non-list value where a
list is expected degrades to an empty collection without raising.  For
the document whose `containerVersion.variable` is the number `5`, the
collection traversal performed by every analysis routine raises instead
(modelled by `loadContainer` returning an error), so the operations do
not behave as if the collection were empty. -/
theorem C9_counterexample :
    loadContainer c9BadDoc true = .error () ∧
    ∀ cont, loadContainer c9BadDoc true ≠ .ok cont := by
  refine ⟨rfl, ?_⟩
  intro cont h
  rw [show loadContainer c9BadDoc true = .error () from rfl] at h
  exact Except.noConfusion h

/-- Claim C9 (amended): a missing `containerVersion` key or a missing
component-collection key degrades to empty collections and every
analysis operation runs without raising (returning the empty-container
results); but a non-list value where a list is expected is used as-is
and the analysis raises (see the counterexample), rather than behaving
as if the collection were empty. -/
theorem C9_malformed_input (b : Bool) :
    (∀ doc : JObj, jget doc "containerVersion" = none →
      loadContainer doc b = .ok (emptyContainer b)) ∧
    (∀ cv : JObj, jget cv "variable" = none →
      ∀ cont, loadContainer (JObj.cons "containerVersion" (.obj cv) JObj.nil) b =
          .ok cont →
        cont.vars = []) ∧
    findUnusedVariables (emptyContainer b) = [] ∧
    getVariableUsageCounts (emptyContainer b) = [] ∧
    analyzeTagEvaluationImpact (emptyContainer b) = emptyTagImpact ∧
    analyzeTriggerEvaluationImpact (emptyContainer b) = emptyTriggerImpact ∧
    (∀ bu : Bucket, findDuplicateVariables (emptyContainer b) bu = []) :=
  ⟨fun _ h => loadContainer_missing_cv b h,
   fun cv h cont hok => loadContainer_missing_variable_key cv b h cont hok,
   rfl, rfl, rfl, rfl, fun _ => rfl⟩

/-- Claim C9, witness: `C9_malformed_input` applied to the empty
document (no `containerVersion`) and to a `containerVersion` without a
`variable` key. -/
theorem C9_witness :
    jget JObj.nil "containerVersion" = none ∧
    loadContainer JObj.nil true = .ok (emptyContainer true) ∧
    (emptyContainer true).vars = [] :=
  ⟨rfl, (C9_malformed_input true).1 JObj.nil rfl,
   (C9_malformed_input true).2.1 JObj.nil rfl (emptyContainer true) rfl⟩

/-- Claim C10: `get_all_variable_references_recursive` called on a name
matching no variable of the container returns the empty mapping (the
name is treated as a leaf contributing no further reachable
variables). -/
theorem C10_unknown_name (vars : List JObj) (name : String)
    (h : ∀ v ∈ vars, varNameOf v ≠ name) :
    getAllVariableReferencesRecursive vars name [] = [] :=
  resolve_unknown vars name h

/-- Claim C10, witness: the resolver on the name `Missing`, which no
variable of the one-variable container carries. -/
theorem C10_witness :
    (∀ v ∈ [c10V], varNameOf v ≠ "Missing") ∧
    getAllVariableReferencesRecursive [c10V] "Missing" [] = [] :=
  ⟨by decide, C10_unknown_name [c10V] "Missing" (by decide)⟩
